import Mathlib

/-!
Unmap latency benchmark (`micro-benchmark.c`).

A shallow embedding of `src/micro-benchmark.c`.  Every process is a value of
`Proc`: the list of observable events it performs, in order, and how it ends
(the code fragment returns, or the process terminates through `exit`).  The
results of operating-system calls are read from an `OS` record, so that every
theorem quantifies over all behaviours of the operating system.

A line event in a trace means that the line is appended to the standard output
stream of the process.  When standard output is a terminal the stream is
line-buffered and the line is written at once; otherwise it is fully buffered and
the line is written when the buffer fills or when the process ends (`exit`, or
the return from `main`).  A process created by `fork` starts with a copy of the
lines still held in the parent's buffer, which it writes as its own.

Not modelled: the `%.3f` formatting of durations (lines carry the duration in
microseconds), the contents of memory, and the interleaving of the output of
different processes.
-/

set_option maxRecDepth 100000

namespace MicroBenchmark

/-! ## Events, outcomes, processes -/

/-- Observable actions of one process: lines written and system calls issued. -/
inductive Event where
  /-- stderr: `Usage: %s <memory_size_MB> <repeat_times> <child_processes>`, with `argv[0]`. -/
  | usage (argv0 : Option String)
  /-- stderr: `All parameters must be positive integers`. -/
  | invalid
  /-- the call `system("cat /sys/kernel/mm/transparent_hugepage/enabled")`. -/
  | system
  /-- stderr: `Warning: Failed to check transparent hugepage status`. -/
  | warning
  /-- stdout: `=== Round %d ===`. -/
  | roundHeader (n : Int)
  /-- the call `mmap(NULL, length, ...)`. -/
  | mmap (length : Nat)
  /-- the call `madvise(addr, length, MADV_HUGEPAGE)`. -/
  | madvise (addr length : Nat)
  /-- stdout: `Writing to memory (size=%zu MB)...`. -/
  | writing (mb : Nat)
  /-- the call `memset(addr, 0xFF, length)`. -/
  | memset (addr length : Nat)
  /-- the call `gettimeofday`. -/
  | gettimeofday
  /-- the call `fork()` issued in round `r` (0-based) for index `i`, and the value it
  returned in the calling process. -/
  | fork (r i : Nat) (ret : Int)
  /-- the call `waitpid(pid, NULL, 0)`. -/
  | waitpid (pid : Int)
  /-- stdout: `Total time (fork to last child exit): ... ms`, duration in microseconds. -/
  | total (us : Int)
  /-- the call `munmap(addr, length)`. -/
  | munmap (addr length : Nat)
  /-- stderr: `perror(msg)`. -/
  | perror (msg : String)
  /-- stdout: `Child %d unmap time: ... ms`, duration in microseconds. -/
  | childLine (child_id : Int) (us : Int)
  /-- stdout: the end of a line whose beginning was written out when the buffer filled. -/
  | fragment
  deriving DecidableEq

/-- How a code fragment ends inside a process. -/
inductive Outcome (α : Type) where
  /-- control reaches the end of the fragment, with a value. -/
  | returned (a : α)
  /-- the process was terminated by `exit(status)`. -/
  | exited (status : Int)
  deriving DecidableEq

/-- A run of a code fragment: the events performed and the outcome. -/
structure Proc (α : Type) where
  trace : List Event
  outcome : Outcome α
  deriving DecidableEq

/-- Sequencing: the second fragment runs only when the first one returns. -/
def Proc.bind {α β : Type} (x : Proc α) (f : α → Proc β) : Proc β :=
  match x.outcome with
  | .returned a => ⟨x.trace ++ (f a).trace, (f a).outcome⟩
  | .exited s => ⟨x.trace, .exited s⟩

instance : Monad Proc where
  pure a := ⟨[], .returned a⟩
  bind := Proc.bind

/-- Perform one event and go on. -/
def emit (e : Event) : Proc Unit := ⟨[e], .returned ()⟩

/-- The C library's `exit`: terminates the process. -/
def exit {α : Type} (status : Int) : Proc α := ⟨[], .exited status⟩

/-- The exit status of a process whose `main` ran as `p`. -/
def exitStatus (p : Proc Int) : Int :=
  match p.outcome with
  | .returned v => v
  | .exited s => s

/-- The loop `for (int i = lo; i < lo + count; i++) s = body(i, s);`. -/
def forLoop {σ : Type} (body : Nat → σ → Proc σ) : Nat → Nat → σ → Proc σ
  | _, 0, s => pure s
  | i, k + 1, s => do
    let s ← body i s
    forLoop body (i + 1) k s

/-! ## Machine integers and the C library -/

/-- The status `EXIT_FAILURE`. -/
def EXIT_FAILURE : Int := 1

/-- Largest `long` on a 64-bit machine. -/
def LONG_MAX : Int := 2 ^ 63 - 1

/-- Smallest `long` on a 64-bit machine. -/
def LONG_MIN : Int := -(2 ^ 63)

/-- The value `(void *) -1` on a 64-bit machine. -/
def MAP_FAILED : Nat := 2 ^ 64 - 1

/-- Wrap to a signed 64-bit `long`. -/
def wrap_long (x : Int) : Int := (x + 2 ^ 63) % 2 ^ 64 - 2 ^ 63

/-- Wrap to a signed 32-bit `int`. -/
def wrap_int (x : Int) : Int := (x + 2 ^ 31) % 2 ^ 32 - 2 ^ 31

/-- Conversion of a `long` to the unsigned 64-bit `size_t`. -/
def to_size_t (x : Int) : Nat := (x % 2 ^ 64).toNat

/-- The C library's `isspace` in the C locale. -/
def isspace (c : Char) : Bool :=
  c.toNat = 32 || (9 ≤ c.toNat && c.toNat ≤ 13)

/-- The C library's `isdigit`. -/
def isdigit (c : Char) : Bool := 48 ≤ c.toNat && c.toNat ≤ 57

/-- Value of the longest prefix of decimal digits, continuing from `acc`. -/
def digits : List Char → Nat → Nat
  | [], acc => acc
  | c :: cs, acc => if isdigit c then digits cs (acc * 10 + (c.toNat - 48)) else acc

/-- Sign and digits of `strtol(s, NULL, 10)` once white space is skipped. -/
def signed_digits : List Char → Int
  | [] => 0
  | c :: cs =>
    if c = '-' then -(digits cs 0 : Int)
    else if c = '+' then (digits cs 0 : Int)
    else (digits (c :: cs) 0 : Int)

/-- The C library's `strtol(s, NULL, 10)` (glibc): skip white space, read an optional
sign and the longest run of digits, ignore what follows, clamp to the range of `long`. -/
def strtol (s : String) : Int :=
  max LONG_MIN (min LONG_MAX (signed_digits (s.toList.dropWhile isspace)))

/-- The C library's `atol`. -/
def atol (s : String) : Int := strtol s

/-- The C library's `atoi` (glibc): `(int) strtol(s, NULL, 10)`. -/
def atoi (s : String) : Int := wrap_int (strtol s)

/-! ## The operating system -/

/-- What `gettimeofday` stores. -/
structure Timeval where
  tv_sec : Int
  tv_usec : Int

/-- Results of the operating-system calls, by call site.  Rounds `r` and child
indices `i` are 0-based. -/
structure OS where
  /-- return value of `system(...)`. -/
  system : Int
  /-- value returned by the `mmap` of round `r` (`MAP_FAILED` on failure). -/
  mmap : Nat → Nat
  /-- return value of the `madvise` of round `r`. -/
  madvise : Nat → Int
  /-- value returned, in the calling process, by the `fork` of round `r`, index `i`. -/
  fork : Nat → Nat → Int
  /-- return value of `munmap` in the child created in round `r` at index `i`. -/
  munmap : Nat → Nat → Int
  /-- clock reading of the parent before the fork loop of round `r`. -/
  forkStart : Nat → Timeval
  /-- clock reading of the parent after the wait loop of round `r`. -/
  forkEnd : Nat → Timeval
  /-- clock reading of child `(r, i)` before its `munmap`. -/
  childStart : Nat → Nat → Timeval
  /-- clock reading of child `(r, i)` after its `munmap`. -/
  childEnd : Nat → Nat → Timeval
  /-- standard output is a terminal: the stream is line-buffered, otherwise fully
  buffered. -/
  isatty : Bool
  /-- fully buffered output: how many of the lines printed by the parent have left its
  buffer (because the buffer filled) when the parent forks in round `r`; 0 as long as the
  buffer has not filled. -/
  flushed : Nat → Nat
  /-- fully buffered output: the first line still in the buffer when the parent forks in
  round `r` is one whose beginning has already been written out. -/
  cut : Nat → Bool

/-! ## The program -/

/-- The function `exit_with_error` (lines 12-15). -/
def exit_with_error (msg : String) : Proc Unit := do
  emit (.perror msg)
  exit EXIT_FAILURE

/-- The value computed by `get_time_us` from a clock reading (line 21). -/
def time_us (tv : Timeval) : Int := tv.tv_sec * 1000000 + tv.tv_usec

/-- The function `get_time_us` (lines 18-22), the clock reading being `tv`. -/
def get_time_us (tv : Timeval) : Proc Int := do
  emit .gettimeofday
  pure (time_us tv)

/-- The function `child_work` (lines 25-35), run by the child created in round `r` at
index `i`. -/
def child_work (os : OS) (r i : Nat) (addr length : Nat) (child_id : Int) : Proc Unit := do
  let start ← get_time_us (os.childStart r i)
  emit (.munmap addr length)
  if os.munmap r i = -1 then
    exit_with_error "munmap failed"
  let stop ← get_time_us (os.childEnd r i)
  emit (.childLine child_id (stop - start))
  exit 0

/-- Body of the fork loop once `fork()` has returned `ret` (lines 81-87). -/
def after_fork (os : OS) (r : Nat) (addr mem_size : Nat) (i : Nat) (pids : Nat → Int)
    (ret : Int) : Proc (Nat → Int) := do
  let pids := Function.update pids i ret
  if pids i < 0 then
    exit_with_error "fork failed"
  else if pids i = 0 then
    child_work os r i addr mem_size ((i : Int) + 1)
  pure pids

/-- Body of the fork loop in the process that calls `fork()` (lines 81-87). -/
def fork_body (os : OS) (r : Nat) (addr mem_size : Nat) (i : Nat) (pids : Nat → Int) :
    Proc (Nat → Int) := do
  emit (.fork r i (os.fork r i))
  after_fork os r addr mem_size i pids (os.fork r i)

/-- Body of the wait loop (line 92). -/
def wait_body (pids : Nat → Int) (i : Nat) (_ : Unit) : Proc Unit :=
  emit (.waitpid (pids i))

/-- The rest of a round from index `lo` of the fork loop on (lines 80-97). -/
def round_tail (os : OS) (r : Nat) (addr mem_size : Nat) (num_children : Int)
    (fork_start : Int) (lo : Nat) (pids : Nat → Int) : Proc Unit := do
  let pids ← forLoop (fork_body os r addr mem_size) lo (num_children.toNat - lo) pids
  forLoop (wait_body pids) 0 num_children.toNat ()
  let fork_end ← get_time_us (os.forkEnd r)
  emit (.total (fork_end - fork_start))

/-- One round: the body of the outer loop (lines 58-97). -/
def round (os : OS) (mem_size : Nat) (num_children : Int) (r : Nat) (_ : Unit) :
    Proc Unit := do
  emit (.roundHeader ((r : Int) + 1))
  emit (.mmap mem_size)
  let addr := os.mmap r
  if addr = MAP_FAILED then
    exit_with_error "mmap failed"
  emit (.madvise addr mem_size)
  if os.madvise r = -1 then
    exit_with_error "madvise MADV_HUGEPAGE failed"
  emit (.writing (mem_size / (1024 * 1024)))
  emit (.memset addr mem_size)
  let fork_start ← get_time_us (os.forkStart r)
  round_tail os r addr mem_size num_children fork_start 0 (fun _ => 0)

/-- The value of `mem_size` (line 43): `atol(argv[1]) * 1024 * 1024` in `long`
arithmetic, converted to `size_t`. -/
def mem_size_of (a1 : String) : Nat :=
  to_size_t (wrap_long (wrap_long (atol a1 * 1024) * 1024))

/-- The function `main` (lines 37-101) in the process started by the user. -/
def main (os : OS) (argv : List String) : Proc Int := do
  if (argv.length : Int) ≠ 4 then
    emit (.usage argv.head?)
    exit EXIT_FAILURE
  let mem_size := mem_size_of (argv.getD 1 "")
  let repeat_ := atoi (argv.getD 2 "")
  let num_children := atoi (argv.getD 3 "")
  if mem_size ≤ 0 ∨ repeat_ ≤ 0 ∨ num_children ≤ 0 then
    emit .invalid
    exit EXIT_FAILURE
  emit .system
  if os.system ≠ 0 then
    emit .warning
  forLoop (round os mem_size num_children) 0 repeat_.toNat ()
  pure 0

/-- The lines of a trace: what the process writes on standard output, in order. -/
def stdout (t : List Event) : List Event :=
  t.filter fun e =>
    match e with
    | .roundHeader _ | .writing _ | .total _ | .childLine _ _ | .fragment => true
    | _ => false

/-- The lines the parent has printed when it calls the `fork` of round `r`, index `i`. -/
def printed_before_fork (os : OS) (argv : List String) (r i : Nat) : List Event :=
  stdout ((main os argv).trace.takeWhile fun e => decide (e ≠ .fork r i (os.fork r i)))

/-- The content of the parent's output buffer when it calls the `fork` of round `r`,
index `i`: nothing when standard output is line-buffered, otherwise the lines printed
and not yet written out. -/
def inherited (os : OS) (argv : List String) (r i : Nat) : List Event :=
  if os.isatty then []
  else
    match (printed_before_fork os argv r i).drop (os.flushed r) with
    | [] => []
    | l :: ls => if os.cut r then .fragment :: ls else l :: ls

/-- The lines `t` are in the output buffer when the process starts: it writes them as
its own, before anything it prints. -/
def starts_with_buffer (t : List Event) : Proc Unit := ⟨t, .returned ()⟩

/-- The process created by the `fork` of round `r`, index `i`: it resumes `main` where
`fork()` returns 0, with a copy of the parent's variables and of the parent's output
buffer, whose content is part of what it writes. -/
def child (os : OS) (argv : List String) (r i : Nat) : Proc Int := do
  let mem_size := mem_size_of (argv.getD 1 "")
  let repeat_ := atoi (argv.getD 2 "")
  let num_children := atoi (argv.getD 3 "")
  let addr := os.mmap r
  let fork_start := time_us (os.forkStart r)
  let pids : Nat → Int := fun j => if j < i then os.fork r j else 0
  starts_with_buffer (inherited os argv r i)
  let pids ← after_fork os r addr mem_size i pids 0
  round_tail os r addr mem_size num_children fork_start (i + 1) pids
  forLoop (round os mem_size num_children) (r + 1) (repeat_.toNat - (r + 1)) ()
  pure 0

/-- The children created by a process, read off its trace: the `(r, i)` of every
`fork` call that returned a positive process identifier. -/
def spawned (t : List Event) : List (Nat × Nat) :=
  t.filterMap fun e =>
    match e with
    | .fork r i ret => if 0 < ret then some (r, i) else none
    | _ => none


/-! ## Vocabulary of the statements -/

/-- The events of the parent in a round up to the start of the fork loop, when
`mmap` and `madvise` succeed (lines 58-76). -/
def round_start_events (os : OS) (mem_size r : Nat) : List Event :=
  [.roundHeader ((r : Int) + 1), .mmap mem_size, .madvise (os.mmap r) mem_size,
    .writing (mem_size / (1024 * 1024)), .memset (os.mmap r) mem_size, .gettimeofday]

/-- The events of the parent in a round in which none of its calls fails. -/
def round_events (os : OS) (mem_size n r : Nat) : List Event :=
  round_start_events os mem_size r
  ++ (List.range n).map (fun i => .fork r i (os.fork r i))
  ++ (List.range n).map (fun i => .waitpid (os.fork r i))
  ++ [.gettimeofday, .total (time_us (os.forkEnd r) - time_us (os.forkStart r))]

/-- The events of the probe of the huge-page configuration (lines 53-55). -/
def probe_events (os : OS) : List Event :=
  if os.system ≠ 0 then [.system, .warning] else [.system]

/-- None of the parent's calls fails in round `r` with `n` children. -/
def RoundSucceeds (os : OS) (n r : Nat) : Prop :=
  os.mmap r ≠ MAP_FAILED ∧ os.madvise r ≠ -1 ∧ ∀ i < n, 0 < os.fork r i

/-- The lines written on standard output by the children that the run of `main`
created in round `r`, child by child in the order of creation. -/
def child_lines (os : OS) (argv : List String) (r : Nat) : List Event :=
  ((spawned (main os argv).trace).filter (fun p => p.1 = r)).flatMap
    (fun p => stdout (child os argv p.1 p.2).trace)

/-- The per-child timing lines among the lines `t`. -/
def timing_lines (t : List Event) : List Event :=
  t.filter fun e =>
    match e with
    | .childLine _ _ => true
    | _ => false

/-- An operating system on which every call succeeds, with a terminal as standard
output. -/
def os_ok : OS where
  system := 0
  mmap := fun r => 4096 * (r + 1)
  madvise := fun _ => 0
  fork := fun _ i => (i : Int) + 100
  munmap := fun _ _ => 0
  forkStart := fun _ => ⟨10, 0⟩
  forkEnd := fun _ => ⟨10, 900⟩
  childStart := fun _ _ => ⟨10, 100⟩
  childEnd := fun _ _ => ⟨10, 350⟩
  isatty := true
  flushed := fun _ => 0
  cut := fun _ => false

/-- The operating system `os_ok` with a pipe or a file as standard output, the buffer
never filling. -/
def os_pipe : OS := { os_ok with isatty := false }

/-- An operating system that cannot map the memory asked for. -/
def os_enomem : OS := { os_ok with mmap := fun _ => MAP_FAILED }

/-- The operating system `os_ok`, except that `munmap` fails in every child. -/
def os_unmap_fails : OS := { os_ok with munmap := fun _ _ => -1 }

/-- The operating system `os_ok`, except that in round 1 the `fork` of index 2 fails. -/
def os_fork_fails : OS :=
  { os_ok with fork := fun r i => if r = 1 ∧ i = 2 then -1 else (i : Int) + 100 }

/-- Every byte length carried by the event is `len` and every size in megabytes is `mb`. -/
def SizesAre (len mb : Nat) : Event → Prop
  | .mmap l => l = len
  | .madvise _ l => l = len
  | .memset _ l => l = len
  | .munmap _ l => l = len
  | .writing x => x = mb
  | _ => True

/-- Every duration carried by the event is the difference of the two clock readings of
the parent in some round, resp. of some child. -/
def Durations (os : OS) : Event → Prop
  | .total d => ∃ r, d = time_us (os.forkEnd r) - time_us (os.forkStart r)
  | .childLine _ d => ∃ r i, d = time_us (os.childEnd r i) - time_us (os.childStart r i)
  | _ => True

/-- An event of the round loop for a region of `len` bytes: sizes agree with `len`,
durations come from the clock readings, and the event is neither the usage nor the
validation message. -/
def RoundEvent (os : OS) (len : Nat) (e : Event) : Prop :=
  SizesAre len (len / (1024 * 1024)) e ∧ e ≠ .invalid ∧ (∀ a, e ≠ .usage a) ∧ Durations os e

/-- The event is a call to `fork` or to `waitpid`. -/
def ForkOrWait : Event → Prop
  | .fork _ _ _ => True
  | .waitpid _ => True
  | _ => False

/-- The event is a line of standard output. -/
def IsLine : Event → Prop
  | .roundHeader _ => True
  | .writing _ => True
  | .total _ => True
  | .childLine _ _ => True
  | .fragment => True
  | _ => False

/-- The event belongs to the parent's side of a round: a `fork`, a `waitpid`, a round
header or a total-time line. -/
def ParentOnly : Event → Prop
  | .fork _ _ _ => True
  | .waitpid _ => True
  | .roundHeader _ => True
  | .total _ => True
  | _ => False

/-- What is left of a numeric argument once an optional sign is read. -/
def after_sign : List Char → List Char
  | [] => []
  | c :: cs => if c = '-' ∨ c = '+' then cs else c :: cs

/-- The string has no decimal digit after optional white space and sign. -/
def no_leading_digits (s : String) : Bool :=
  match after_sign (s.toList.dropWhile isspace) with
  | [] => true
  | c :: _ => !isdigit c

/-- The string is a non-empty run of decimal digits. -/
def is_decimal (s : String) : Bool :=
  !s.toList.isEmpty && s.toList.all isdigit

/-- The string is empty or starts with a character that is not a decimal digit. -/
def no_digit_first (s : String) : Bool :=
  match s.toList with
  | [] => true
  | c :: _ => !isdigit c

/-! # Lemmas -/


/-! ## Laws of sequencing -/

theorem pure_def {α : Type} (a : α) : (pure a : Proc α) = ⟨[], .returned a⟩ := rfl

@[simp] theorem mk_returned_bind {α β : Type} (t : List Event) (a : α) (f : α → Proc β) :
    (Proc.mk t (.returned a)) >>= f = ⟨t ++ (f a).trace, (f a).outcome⟩ := rfl

@[simp] theorem mk_exited_bind {α β : Type} (t : List Event) (s : Int) (f : α → Proc β) :
    (Proc.mk t (.exited s : Outcome α)) >>= f = ⟨t, .exited s⟩ := rfl

theorem bind_cases {α β : Type} (x : Proc α) (f : α → Proc β) :
    (∃ a, x.outcome = .returned a ∧ x >>= f = ⟨x.trace ++ (f a).trace, (f a).outcome⟩) ∨
    (∃ s, x.outcome = .exited s ∧ x >>= f = ⟨x.trace, .exited s⟩) := by
  obtain ⟨t, o⟩ := x
  cases o with
  | returned a => exact Or.inl ⟨a, rfl, rfl⟩
  | exited s => exact Or.inr ⟨s, rfl, rfl⟩

theorem bind_assoc' {α β γ : Type} (x : Proc α) (f : α → Proc β) (g : β → Proc γ) :
    x >>= f >>= g = x >>= fun a => f a >>= g := by
  obtain ⟨t, o⟩ := x
  cases o with
  | exited s => rfl
  | returned a =>
    simp only [mk_returned_bind]
    obtain ⟨t', o'⟩ := f a
    cases o' with
    | exited s => simp
    | returned b => simp

theorem forLoop_zero {σ : Type} (body : Nat → σ → Proc σ) (lo : Nat) (s : σ) :
    forLoop body lo 0 s = ⟨[], .returned s⟩ := rfl

theorem forLoop_succ {σ : Type} (body : Nat → σ → Proc σ) (lo k : Nat) (s : σ) :
    forLoop body lo (k + 1) s = body lo s >>= fun s => forLoop body (lo + 1) k s := rfl

/-- A loop of `a + b` iterations is a loop of `a` iterations followed by one of `b`. -/
theorem forLoop_add {σ : Type} (body : Nat → σ → Proc σ) (a b : Nat) :
    ∀ (lo : Nat) (s : σ),
      forLoop body lo (a + b) s = forLoop body lo a s >>= fun s => forLoop body (lo + a) b s := by
  induction a with
  | zero => intro lo s; simp [forLoop_zero]
  | succ a ih =>
    intro lo s
    have e : a + 1 + b = (a + b) + 1 := by omega
    rw [e, forLoop_succ, forLoop_succ, bind_assoc']
    congr 1
    funext s1
    rw [ih (lo + 1) s1]
    have e2 : lo + 1 + a = lo + (a + 1) := by omega
    rw [e2]

/-- A loop over `Unit` whose iterations all return performs their events in order. -/
theorem forLoop_unit (body : Nat → Unit → Proc Unit) (t : Nat → List Event) (k : Nat) :
    ∀ lo : Nat, (∀ i, lo ≤ i → i < lo + k → body i () = ⟨t i, .returned ()⟩) →
      forLoop body lo k () = ⟨(List.range' lo k).flatMap t, .returned ()⟩ := by
  induction k with
  | zero => intro lo _; simp [forLoop_zero]
  | succ k ih =>
    intro lo h
    rw [forLoop_succ, h lo (le_refl _) (by omega), mk_returned_bind,
      ih (lo + 1) (fun i h1 h2 => h i (by omega) (by omega))]
    simp [List.range'_succ]

/-! ## The child -/

theorem child_work_ok (os : OS) (r i addr len : Nat) (id : Int) (h : os.munmap r i ≠ -1) :
    child_work os r i addr len id =
      ⟨[.gettimeofday, .munmap addr len, .gettimeofday,
        .childLine id (time_us (os.childEnd r i) - time_us (os.childStart r i))], .exited 0⟩ := by
  simp [child_work, get_time_us, emit, exit, pure_def, h]

theorem child_work_fail (os : OS) (r i addr len : Nat) (id : Int) (h : os.munmap r i = -1) :
    child_work os r i addr len id =
      ⟨[.gettimeofday, .munmap addr len, .perror "munmap failed"], .exited 1⟩ := by
  simp [child_work, get_time_us, exit_with_error, emit, exit, pure_def, h, EXIT_FAILURE]

theorem child_work_exits (os : OS) (r i addr len : Nat) (id : Int) :
    ∃ s, (child_work os r i addr len id).outcome = .exited s := by
  by_cases h : os.munmap r i = -1
  · exact ⟨1, by rw [child_work_fail _ _ _ _ _ _ h]⟩
  · exact ⟨0, by rw [child_work_ok _ _ _ _ _ _ h]⟩

/-! ## The fork loop -/

theorem fork_body_ok (os : OS) (r addr ms i : Nat) (pids : Nat → Int) (h : 0 < os.fork r i) :
    fork_body os r addr ms i pids =
      ⟨[.fork r i (os.fork r i)], .returned (Function.update pids i (os.fork r i))⟩ := by
  have h1 : ¬ os.fork r i < 0 := by omega
  have h2 : ¬ os.fork r i = 0 := by omega
  simp [fork_body, after_fork, emit, pure_def, h1, h2]

theorem fork_body_fail (os : OS) (r addr ms i : Nat) (pids : Nat → Int) (h : os.fork r i < 0) :
    fork_body os r addr ms i pids =
      ⟨[.fork r i (os.fork r i), .perror "fork failed"], .exited 1⟩ := by
  simp [fork_body, after_fork, exit_with_error, emit, exit, pure_def, h, EXIT_FAILURE]

/-- The fork loop when every call succeeds: one `fork` per index, and `pids` filled. -/
theorem fork_loop_ok (os : OS) (r addr ms : Nat) (k : Nat) :
    ∀ (lo : Nat) (pids : Nat → Int), (∀ i, lo ≤ i → i < lo + k → 0 < os.fork r i) →
      ∃ pids1 : Nat → Int,
        forLoop (fork_body os r addr ms) lo k pids =
          ⟨(List.range' lo k).map (fun i => .fork r i (os.fork r i)), .returned pids1⟩ ∧
        (∀ j, lo ≤ j → j < lo + k → pids1 j = os.fork r j) ∧
        (∀ j, ¬ (lo ≤ j ∧ j < lo + k) → pids1 j = pids j) := by
  induction k with
  | zero =>
    intro lo pids _
    exact ⟨pids, by simp [forLoop_zero], fun j h1 h2 => by omega, fun _ _ => rfl⟩
  | succ k ih =>
    intro lo pids h
    obtain ⟨p1, e1, e2, e3⟩ := ih (lo + 1) (Function.update pids lo (os.fork r lo))
      (fun i h1 h2 => h i (by omega) (by omega))
    refine ⟨p1, ?_, ?_, ?_⟩
    · rw [forLoop_succ, fork_body_ok _ _ _ _ _ _ (h lo (le_refl _) (by omega)),
        mk_returned_bind, e1]
      simp [List.range'_succ]
    · intro j h1 h2
      by_cases hj : j = lo
      · subst hj
        rw [e3 j (by omega)]
        simp
      · exact e2 j (by omega) (by omega)
    · intro j hj
      rw [e3 j (by omega)]
      have : j ≠ lo := by omega
      simp [this]

theorem wait_loop (pids : Nat → Int) (k : Nat) :
    ∀ lo : Nat, forLoop (wait_body pids) lo k () =
      ⟨(List.range' lo k).map (fun i => .waitpid (pids i)), .returned ()⟩ := by
  induction k with
  | zero => intro lo; simp [forLoop_zero]
  | succ k ih =>
    intro lo
    simp [forLoop_succ, ih, wait_body, emit, List.range'_succ]

/-! ## Rounds that run to completion -/

theorem round_ok (os : OS) (ms : Nat) (nc : Int) (r : Nat) (h : RoundSucceeds os nc.toNat r) :
    round os ms nc r () = ⟨round_events os ms nc.toNat r, .returned ()⟩ := by
  obtain ⟨h1, h2, h3⟩ := h
  obtain ⟨p1, e1, e2, -⟩ := fork_loop_ok os r (os.mmap r) ms nc.toNat 0 (fun _ => 0)
    (fun i _ hi => h3 i (by omega))
  simp only [round, round_tail, Nat.sub_zero, e1, wait_loop]
  simp [emit, get_time_us, pure_def, h1, h2, round_events, round_start_events, List.range_eq_range']
  intro a ha
  exact e2 a (by omega) (by omega)

theorem rounds_ok (os : OS) (ms : Nat) (nc : Int) (k : Nat)
    (h : ∀ r < k, RoundSucceeds os nc.toNat r) :
    forLoop (round os ms nc) 0 k () =
      ⟨(List.range k).flatMap (round_events os ms nc.toNat), .returned ()⟩ := by
  rw [forLoop_unit (round os ms nc) (round_events os ms nc.toNat) k 0
    (fun i _ hi => round_ok os ms nc i (h i (by omega))), List.range_eq_range']

/-- What `main` does once the arguments are accepted (lines 52-100). -/
theorem main_valid (os : OS) (a0 a1 a2 a3 : String) (h1 : 0 < mem_size_of a1)
    (h2 : 0 < atoi a2) (h3 : 0 < atoi a3) :
    main os [a0, a1, a2, a3] =
      (⟨probe_events os, .returned ()⟩ : Proc Unit) >>= fun _ =>
        forLoop (round os (mem_size_of a1) (atoi a3)) 0 (atoi a2).toNat () >>= fun _ =>
          pure 0 := by
  have h1' : ¬ mem_size_of a1 = 0 := by omega
  have h2' : ¬ atoi a2 ≤ 0 := by omega
  have h3' : ¬ atoi a3 ≤ 0 := by omega
  by_cases hs : os.system = 0
  · simp [main, emit, pure_def, h1', h2', h3', probe_events, hs]
  · simp [main, emit, pure_def, h1', h2', h3', probe_events, hs]

/-- The whole run of the parent when none of its calls fails. -/
theorem main_ok (os : OS) (a0 a1 a2 a3 : String) (h1 : 0 < mem_size_of a1)
    (h2 : 0 < atoi a2) (h3 : 0 < atoi a3)
    (h : ∀ r < (atoi a2).toNat, RoundSucceeds os (atoi a3).toNat r) :
    main os [a0, a1, a2, a3] =
      ⟨probe_events os ++
        (List.range (atoi a2).toNat).flatMap (round_events os (mem_size_of a1) (atoi a3).toNat),
        .returned 0⟩ := by
  rw [main_valid os a0 a1 a2 a3 h1 h2 h3, rounds_ok os _ _ _ h]
  simp [pure_def]

/-! ## Reading traces -/

theorem spawned_append (s t : List Event) : spawned (s ++ t) = spawned s ++ spawned t := by
  simp [spawned, List.filterMap_append]

theorem stdout_append (s t : List Event) : stdout (s ++ t) = stdout s ++ stdout t := by
  simp [stdout]

theorem spawned_flatMap {α : Type} (f : α → List Event) (l : List α) :
    spawned (l.flatMap f) = l.flatMap (fun a => spawned (f a)) := by
  induction l with
  | nil => rfl
  | cons a l ih => simp [List.flatMap_cons, spawned_append, ih]

theorem stdout_flatMap {α : Type} (f : α → List Event) (l : List α) :
    stdout (l.flatMap f) = l.flatMap (fun a => stdout (f a)) := by
  induction l with
  | nil => rfl
  | cons a l ih => simp [List.flatMap_cons, stdout_append, ih]

theorem spawned_forks (os : OS) (r : Nat) (l : List Nat) (h : ∀ i ∈ l, 0 < os.fork r i) :
    spawned (l.map (fun i => Event.fork r i (os.fork r i))) = l.map (fun i => (r, i)) := by
  induction l with
  | nil => rfl
  | cons a l ih =>
    have ha : 0 < os.fork r a := h a (List.mem_cons_self _ _)
    have ih1 := ih (fun i hi => h i (List.mem_cons_of_mem _ hi))
    simp only [spawned] at ih1 ⊢
    simp [List.filterMap_cons, ha, ih1]

theorem spawned_waits (f : Nat → Int) (l : List Nat) :
    spawned (l.map (fun i => Event.waitpid (f i))) = [] := by
  induction l with
  | nil => rfl
  | cons a l ih =>
    simp only [spawned] at ih ⊢
    simp [List.filterMap_cons, ih]

theorem stdout_forks (os : OS) (r : Nat) (l : List Nat) :
    stdout (l.map (fun i => Event.fork r i (os.fork r i))) = [] := by
  induction l with
  | nil => rfl
  | cons a l ih =>
    simp only [stdout] at ih ⊢
    simp [List.filter_cons, ih]

theorem stdout_waits (f : Nat → Int) (l : List Nat) :
    stdout (l.map (fun i => Event.waitpid (f i))) = [] := by
  induction l with
  | nil => rfl
  | cons a l ih =>
    simp only [stdout] at ih ⊢
    simp [List.filter_cons, ih]

theorem spawned_probe (os : OS) : spawned (probe_events os) = [] := by
  unfold probe_events
  split <;> rfl

theorem stdout_probe (os : OS) : stdout (probe_events os) = [] := by
  unfold probe_events
  split <;> rfl

theorem spawned_round_events (os : OS) (ms n r : Nat) (h : ∀ i < n, 0 < os.fork r i) :
    spawned (round_events os ms n r) = (List.range n).map (fun i => (r, i)) := by
  unfold round_events round_start_events
  rw [spawned_append, spawned_append, spawned_append, spawned_waits,
    spawned_forks os r _ (fun i hi => h i (List.mem_range.mp hi))]
  simp [spawned]

theorem stdout_round_events (os : OS) (ms n r : Nat) :
    stdout (round_events os ms n r) =
      [.roundHeader ((r : Int) + 1), .writing (ms / (1024 * 1024)),
        .total (time_us (os.forkEnd r) - time_us (os.forkStart r))] := by
  unfold round_events round_start_events
  rw [stdout_append, stdout_append, stdout_append, stdout_waits, stdout_forks]
  simp [stdout]

/-- Among the children of complete rounds `0 .. k-1`, those of round `r`. -/
theorem filter_round (n r : Nat) (k : Nat) :
    ((List.range k).flatMap (fun q => (List.range n).map (fun i => (q, i)))).filter
        (fun p => p.1 = r) =
      if r < k then (List.range n).map (fun i => (r, i)) else [] := by
  induction k with
  | zero => simp
  | succ k ih =>
    rw [List.range_succ, List.flatMap_append, List.filter_append, ih]
    by_cases h1 : r < k
    · have h2 : r < k + 1 := by omega
      have h3 : ¬ k = r := by omega
      simp [h1, h2, List.filter_map, h3, Function.comp_def]
    · by_cases h4 : r = k
      · subst h4
        simp [List.filter_map, Function.comp_def]
      · have h5 : ¬ r < k + 1 := by omega
        have h6 : ¬ k = r := by omega
        simp [h1, h5, List.filter_map, h6, Function.comp_def]

/-! ## The child process -/

theorem child_ok (os : OS) (argv : List String) (r i : Nat) (h : os.munmap r i ≠ -1) :
    child os argv r i =
      ⟨inherited os argv r i ++
        [.gettimeofday, .munmap (os.mmap r) (mem_size_of (argv.getD 1 "")), .gettimeofday,
          .childLine ((i : Int) + 1)
            (time_us (os.childEnd r i) - time_us (os.childStart r i))],
        .exited 0⟩ := by
  simp [child, starts_with_buffer, after_fork, child_work_ok _ _ _ _ _ _ h]

theorem child_fail (os : OS) (argv : List String) (r i : Nat) (h : os.munmap r i = -1) :
    child os argv r i =
      ⟨inherited os argv r i ++
        [.gettimeofday, .munmap (os.mmap r) (mem_size_of (argv.getD 1 "")),
          .perror "munmap failed"], .exited 1⟩ := by
  simp [child, starts_with_buffer, after_fork, child_work_fail _ _ _ _ _ _ h]

theorem mem_stdout {t : List Event} {e : Event} (h : e ∈ stdout t) : e ∈ t ∧ IsLine e := by
  unfold stdout at h
  rw [List.mem_filter] at h
  refine ⟨h.1, ?_⟩
  have h2 := h.2
  cases e <;> simp [IsLine] at h2 ⊢

/-- What a child inherits is made of lines printed by the parent, the first one possibly
cut. -/
theorem mem_inherited {os : OS} {argv : List String} {r i : Nat} {e : Event}
    (h : e ∈ inherited os argv r i) :
    e = .fragment ∨ (e ∈ (main os argv).trace ∧ IsLine e) := by
  unfold inherited at h
  split at h
  · simp at h
  · have sub : ∀ x ∈ (printed_before_fork os argv r i).drop (os.flushed r),
        x ∈ (main os argv).trace ∧ IsLine x := by
      intro x hx
      have h1 := mem_stdout (List.mem_of_mem_drop hx)
      exact ⟨List.takeWhile_subset _ h1.1, h1.2⟩
    split at h
    · simp at h
    · rename_i l ls heq
      rw [heq] at sub
      split at h
      · rcases List.mem_cons.mp h with h1 | h1
        · exact Or.inl h1
        · exact Or.inr (sub e (List.mem_cons_of_mem _ h1))
      · exact Or.inr (sub e h)

theorem inherited_isatty (os : OS) (argv : List String) (r i : Nat) (h : os.isatty = true) :
    inherited os argv r i = [] := by
  simp [inherited, h]

/-! ## A round cut short by `fork` -/

theorem round_fork_fail (os : OS) (ms : Nat) (nc : Int) (r k : Nat) (hk : k < nc.toNat)
    (h1 : os.mmap r ≠ MAP_FAILED) (h2 : os.madvise r ≠ -1)
    (h3 : ∀ i < k, 0 < os.fork r i) (h4 : os.fork r k < 0) :
    round os ms nc r () =
      ⟨round_start_events os ms r ++ (List.range k).map (fun i => .fork r i (os.fork r i))
        ++ [.fork r k (os.fork r k), .perror "fork failed"], .exited EXIT_FAILURE⟩ := by
  obtain ⟨m, hm⟩ : ∃ m, nc.toNat = k + (m + 1) := ⟨nc.toNat - k - 1, by omega⟩
  obtain ⟨p1, e1, -, -⟩ := fork_loop_ok os r (os.mmap r) ms k 0 (fun _ => 0)
    (fun i _ hi => h3 i (by omega))
  have e2 : forLoop (fork_body os r (os.mmap r) ms) 0 nc.toNat (fun _ => 0) =
      ⟨(List.range k).map (fun i => .fork r i (os.fork r i))
        ++ [.fork r k (os.fork r k), .perror "fork failed"], .exited 1⟩ := by
    rw [hm, forLoop_add, e1, mk_returned_bind, Nat.zero_add, forLoop_succ,
      fork_body_fail _ _ _ _ _ _ h4]
    simp [List.range_eq_range']
  simp only [round, round_tail, Nat.sub_zero, e2]
  simp [emit, get_time_us, pure_def, h1, h2, round_start_events, EXIT_FAILURE]

/-- The run of the parent when the first call to fail is the `fork` of round `r`,
index `k`. -/
theorem main_fork_fail (os : OS) (a0 a1 a2 a3 : String) (h1 : 0 < mem_size_of a1)
    (h2 : 0 < atoi a2) (h3 : 0 < atoi a3) (r k : Nat)
    (hr : r < (atoi a2).toNat) (hk : k < (atoi a3).toNat)
    (hp : ∀ q < r, RoundSucceeds os (atoi a3).toNat q)
    (hm : os.mmap r ≠ MAP_FAILED) (ha : os.madvise r ≠ -1)
    (hf : ∀ i < k, 0 < os.fork r i) (hfail : os.fork r k < 0) :
    main os [a0, a1, a2, a3] =
      ⟨probe_events os ++
        (List.range r).flatMap (round_events os (mem_size_of a1) (atoi a3).toNat) ++
        round_start_events os (mem_size_of a1) r ++
        (List.range k).map (fun i => .fork r i (os.fork r i)) ++
        [.fork r k (os.fork r k), .perror "fork failed"], .exited EXIT_FAILURE⟩ := by
  obtain ⟨m, hm'⟩ : ∃ m, (atoi a2).toNat = r + (m + 1) := ⟨(atoi a2).toNat - r - 1, by omega⟩
  have el : forLoop (round os (mem_size_of a1) (atoi a3)) 0 (atoi a2).toNat () =
      ⟨(List.range r).flatMap (round_events os (mem_size_of a1) (atoi a3).toNat) ++
        (round_start_events os (mem_size_of a1) r ++
        (List.range k).map (fun i => .fork r i (os.fork r i)) ++
        [.fork r k (os.fork r k), .perror "fork failed"]), .exited EXIT_FAILURE⟩ := by
    rw [hm', forLoop_add, rounds_ok os _ _ _ hp, mk_returned_bind, Nat.zero_add, forLoop_succ,
      round_fork_fail os _ _ r k hk hm ha hf hfail, mk_exited_bind]
  rw [main_valid os a0 a1 a2 a3 h1 h2 h3, el]
  simp

/-! ## Properties of every event of a run -/

theorem forall_bind {α β : Type} (P : Event → Prop) (x : Proc α) (f : α → Proc β)
    (hx : ∀ e ∈ x.trace, P e) (hf : ∀ a, ∀ e ∈ (f a).trace, P e) :
    ∀ e ∈ (x >>= f).trace, P e := by
  intro e he
  rcases bind_cases x f with ⟨a, -, h⟩ | ⟨s, -, h⟩
  · rw [h] at he
    rcases List.mem_append.mp he with h1 | h1
    · exact hx e h1
    · exact hf a e h1
  · rw [h] at he
    exact hx e he

theorem forall_forLoop {σ : Type} (P : Event → Prop) (body : Nat → σ → Proc σ)
    (hb : ∀ i s, ∀ e ∈ (body i s).trace, P e) (k : Nat) :
    ∀ (lo : Nat) (s : σ), ∀ e ∈ (forLoop body lo k s).trace, P e := by
  induction k with
  | zero => intro lo s e he; simp [forLoop_zero] at he
  | succ k ih =>
    intro lo s
    rw [forLoop_succ]
    exact forall_bind P _ _ (hb lo s) (fun a => ih (lo + 1) a)

theorem child_work_events (os : OS) (r i addr len : Nat) (id : Int) :
    ∀ e ∈ (child_work os r i addr len id).trace, RoundEvent os len e ∧ ¬ ParentOnly e := by
  intro e he
  by_cases h : os.munmap r i = -1
  · rw [child_work_fail _ _ _ _ _ _ h] at he
    simp only [List.mem_cons, List.mem_singleton, List.not_mem_nil, or_false] at he
    rcases he with rfl | rfl | rfl <;> simp [RoundEvent, SizesAre, ParentOnly, Durations]
  · rw [child_work_ok _ _ _ _ _ _ h] at he
    simp only [List.mem_cons, List.mem_singleton, List.not_mem_nil, or_false] at he
    rcases he with rfl | rfl | rfl | rfl
    · simp [RoundEvent, SizesAre, ParentOnly, Durations]
    · simp [RoundEvent, SizesAre, ParentOnly, Durations]
    · simp [RoundEvent, SizesAre, ParentOnly, Durations]
    · exact ⟨⟨trivial, by simp, by simp, ⟨r, i, rfl⟩⟩, by simp [ParentOnly]⟩

theorem after_fork_events (os : OS) (r addr ms i : Nat) (pids : Nat → Int) (ret : Int) :
    ∀ e ∈ (after_fork os r addr ms i pids ret).trace, RoundEvent os ms e := by
  intro e he
  by_cases h1 : ret < 0
  · simp [after_fork, exit_with_error, emit, exit, pure_def, h1] at he
    subst he
    simp [RoundEvent, SizesAre, Durations]
  · by_cases h2 : ret = 0
    · subst h2
      obtain ⟨s, hs⟩ := child_work_exits os r i addr ms ((i : Int) + 1)
      have h3 : (after_fork os r addr ms i pids 0).trace =
          (child_work os r i addr ms ((i : Int) + 1)).trace := by
        rcases hc : child_work os r i addr ms ((i : Int) + 1) with ⟨t, o⟩
        rw [hc] at hs
        simp only at hs
        subst hs
        simp [after_fork, hc]
      rw [h3] at he
      exact (child_work_events os r i addr ms _ e he).1
    · simp [after_fork, pure_def, h1, h2] at he

theorem fork_body_events (os : OS) (r addr ms i : Nat) (pids : Nat → Int) :
    ∀ e ∈ (fork_body os r addr ms i pids).trace, RoundEvent os ms e := by
  unfold fork_body
  apply forall_bind
  · intro e he
    simp [emit] at he
    subst he
    simp [RoundEvent, SizesAre, Durations]
  · intro _
    exact after_fork_events os r addr ms i pids _

theorem round_tail_events (os : OS) (r addr ms : Nat) (nc : Int) (lo : Nat)
    (pids : Nat → Int) :
    ∀ e ∈ (round_tail os r addr ms nc (time_us (os.forkStart r)) lo pids).trace,
      RoundEvent os ms e := by
  unfold round_tail
  apply forall_bind
  · exact forall_forLoop _ _ (fun i s => fork_body_events os r addr ms i s) _ _ _
  · intro p1
    rw [wait_loop]
    intro e he
    simp [emit, get_time_us, pure_def] at he
    rcases he with ⟨_, _, rfl⟩ | rfl | rfl
    · simp [RoundEvent, SizesAre, Durations]
    · simp [RoundEvent, SizesAre, Durations]
    · exact ⟨trivial, by simp, by simp, ⟨r, rfl⟩⟩

theorem round_inv (os : OS) (ms : Nat) (nc : Int) (r : Nat) :
    ∀ e ∈ (round os ms nc r ()).trace, RoundEvent os ms e := by
  by_cases h1 : os.mmap r = MAP_FAILED
  · intro e he
    simp [round, exit_with_error, emit, exit, pure_def, h1] at he
    rcases he with rfl | rfl | rfl <;> simp [RoundEvent, SizesAre, Durations]
  · by_cases h2 : os.madvise r = -1
    · intro e he
      simp [round, exit_with_error, emit, exit, pure_def, h1, h2] at he
      rcases he with rfl | rfl | rfl | rfl <;> simp [RoundEvent, SizesAre, Durations]
    · intro e he
      simp [round, emit, get_time_us, pure_def, h1, h2] at he
      rcases he with rfl | rfl | rfl | rfl | rfl | rfl | he
      all_goals first
        | exact round_tail_events os r _ ms nc 0 _ e he
        | simp [RoundEvent, SizesAre, Durations]

theorem main_invalid (os : OS) (a0 a1 a2 a3 : String)
    (h : mem_size_of a1 = 0 ∨ atoi a2 ≤ 0 ∨ atoi a3 ≤ 0) :
    main os [a0, a1, a2, a3] = ⟨[.invalid], .exited EXIT_FAILURE⟩ := by
  simp [main, emit, exit, pure_def, h]

/-- Past the validation every event of the parent is a probe event or an event of the
round loop. -/
theorem main_events (os : OS) (a0 a1 a2 a3 : String) (h1 : 0 < mem_size_of a1)
    (h2 : 0 < atoi a2) (h3 : 0 < atoi a3) :
    ∀ e ∈ (main os [a0, a1, a2, a3]).trace,
      e ∈ probe_events os ∨ RoundEvent os (mem_size_of a1) e := by
  rw [main_valid os a0 a1 a2 a3 h1 h2 h3]
  intro e he
  simp only [mk_returned_bind, List.mem_append] at he
  rcases he with he | he
  · exact Or.inl he
  · right
    refine forall_bind (RoundEvent os (mem_size_of a1)) _ _ ?_ ?_ e he
    · exact forall_forLoop _ _ (fun i _ => round_inv os _ _ i) _ _ _
    · intro _ e he
      simp [pure_def] at he

/-- Sizes and durations of every event of the parent, whatever the arguments. -/
theorem main_sizes_durations (os : OS) (a0 a1 a2 a3 : String) :
    ∀ e ∈ (main os [a0, a1, a2, a3]).trace,
      SizesAre (mem_size_of a1) (mem_size_of a1 / (1024 * 1024)) e ∧ Durations os e := by
  intro e he
  by_cases hv : 0 < mem_size_of a1 ∧ 0 < atoi a2 ∧ 0 < atoi a3
  · rcases main_events os a0 a1 a2 a3 hv.1 hv.2.1 hv.2.2 e he with h | h
    · unfold probe_events at h
      split at h
      · simp only [List.mem_cons, List.mem_singleton, List.not_mem_nil, or_false] at h
        rcases h with rfl | rfl <;> simp [SizesAre, Durations]
      · simp only [List.mem_singleton] at h
        subst h
        simp [SizesAre, Durations]
    · exact ⟨h.1, h.2.2.2⟩
  · have hv1 : mem_size_of a1 = 0 ∨ atoi a2 ≤ 0 ∨ atoi a3 ≤ 0 := by omega
    rw [main_invalid os a0 a1 a2 a3 hv1] at he
    simp only [List.mem_singleton] at he
    subst he
    simp [SizesAre, Durations]

/-- Sizes and durations of every event of a child, inherited lines included. -/
theorem child_sizes_durations (os : OS) (a0 a1 a2 a3 : String) (r i : Nat) :
    ∀ e ∈ (child os [a0, a1, a2, a3] r i).trace,
      SizesAre (mem_size_of a1) (mem_size_of a1 / (1024 * 1024)) e ∧ Durations os e := by
  have own : ∀ e ∈ (child_work os r i (os.mmap r) (mem_size_of a1) ((i : Int) + 1)).trace,
      SizesAre (mem_size_of a1) (mem_size_of a1 / (1024 * 1024)) e ∧ Durations os e := by
    intro e he
    have := (child_work_events os r i _ _ _ e he).1
    exact ⟨this.1, this.2.2.2⟩
  have inh : ∀ e ∈ inherited os [a0, a1, a2, a3] r i,
      SizesAre (mem_size_of a1) (mem_size_of a1 / (1024 * 1024)) e ∧ Durations os e := by
    intro e he
    rcases mem_inherited he with h | h
    · subst h
      simp [SizesAre, Durations]
    · exact main_sizes_durations os a0 a1 a2 a3 e h.1
  intro e he
  by_cases h : os.munmap r i = -1
  · rw [child_fail os _ r i h] at he
    rw [child_work_fail _ _ _ _ _ _ h] at own
    simp only [List.getD_cons_succ, List.getD_cons_zero] at he
    rcases List.mem_append.mp he with h1 | h1
    · exact inh e h1
    · exact own e h1
  · rw [child_ok os _ r i h] at he
    rw [child_work_ok _ _ _ _ _ _ h] at own
    simp only [List.getD_cons_succ, List.getD_cons_zero] at he
    rcases List.mem_append.mp he with h1 | h1
    · exact inh e h1
    · exact own e h1

/-- A child performs what it inherited, then the events of `child_work`. -/
theorem child_trace (os : OS) (argv : List String) (r i : Nat) :
    (child os argv r i).trace =
      inherited os argv r i ++
        (child_work os r i (os.mmap r) (mem_size_of (argv.getD 1 "")) ((i : Int) + 1)).trace := by
  by_cases h : os.munmap r i = -1
  · rw [child_fail os argv r i h, child_work_fail _ _ _ _ _ _ h]
  · rw [child_ok os argv r i h, child_work_ok _ _ _ _ _ _ h]

theorem bind_trace_extends {α β : Type} (x : Proc α) (f : α → Proc β) :
    ∃ t, (x >>= f).trace = x.trace ++ t := by
  rcases bind_cases x f with ⟨a, -, h⟩ | ⟨s, -, h⟩
  · exact ⟨(f a).trace, by rw [h]⟩
  · exact ⟨[], by rw [h]; simp⟩

/-- Every round starts with its header and the call to `mmap`. -/
theorem round_begins (os : OS) (ms : Nat) (nc : Int) (r : Nat) :
    ∃ t, (round os ms nc r ()).trace = .roundHeader ((r : Int) + 1) :: .mmap ms :: t :=
  ⟨_, rfl⟩

/-- Past the validation, the parent probes the huge-page configuration, then starts
round 1 and calls `mmap`. -/
theorem main_begins (os : OS) (a0 a1 a2 a3 : String) (h1 : 0 < mem_size_of a1)
    (h2 : 0 < atoi a2) (h3 : 0 < atoi a3) :
    ∃ rest, (main os [a0, a1, a2, a3]).trace =
      probe_events os ++ .roundHeader 1 :: .mmap (mem_size_of a1) :: rest := by
  obtain ⟨k, hk⟩ : ∃ k, (atoi a2).toNat = k + 1 := ⟨(atoi a2).toNat - 1, by omega⟩
  rw [main_valid os a0 a1 a2 a3 h1 h2 h3, hk, mk_returned_bind, forLoop_succ]
  obtain ⟨t1, e1⟩ := bind_trace_extends
    (round os (mem_size_of a1) (atoi a3) 0 () >>= fun s =>
      forLoop (round os (mem_size_of a1) (atoi a3)) (0 + 1) k s)
    (fun _ => (pure 0 : Proc Int))
  obtain ⟨t2, e2⟩ := bind_trace_extends (round os (mem_size_of a1) (atoi a3) 0 ())
    (fun s => forLoop (round os (mem_size_of a1) (atoi a3)) (0 + 1) k s)
  obtain ⟨t3, e3⟩ := round_begins os (mem_size_of a1) (atoi a3) 0
  simp only [e1, e2, e3]
  exact ⟨t3 ++ t2 ++ t1, by simp⟩

/-! ## Arithmetic of the memory size -/

theorem mem_size_of_eq (a1 : String) :
    mem_size_of a1 = ((atol a1 * 1024 * 1024) % 2 ^ 64).toNat := by
  simp only [mem_size_of, to_size_t, wrap_long]
  norm_num
  congr 1
  omega

/-! ## Parsing -/

theorem digits_of_non_digit (cs : List Char) (acc : Nat)
    (h : ∀ c ∈ cs.head?, isdigit c = false) : digits cs acc = acc := by
  cases cs with
  | nil => rfl
  | cons c cs => simp [digits, h c (by simp)]

theorem digits_append (d t : List Char) (hd : ∀ c ∈ d, isdigit c = true)
    (ht : ∀ c ∈ t.head?, isdigit c = false) :
    ∀ acc, digits (d ++ t) acc = digits d acc := by
  induction d with
  | nil => intro acc; simp [digits, digits_of_non_digit t acc ht]
  | cons c d ih =>
    intro acc
    have hc : isdigit c = true := hd c (List.mem_cons_self _ _)
    simp [digits, hc, ih (fun x hx => hd x (List.mem_cons_of_mem _ hx))]

theorem strtol_no_digits (s : String) (h : no_leading_digits s = true) : strtol s = 0 := by
  unfold no_leading_digits at h
  unfold strtol
  have key : signed_digits (s.toList.dropWhile isspace) = 0 := by
    generalize s.toList.dropWhile isspace = l at h
    cases l with
    | nil => rfl
    | cons c cs =>
      simp only [after_sign] at h
      by_cases h1 : c = '-'
      · simp only [h1, true_or, if_true] at h
        have : digits cs 0 = 0 := by
          apply digits_of_non_digit
          intro x hx
          cases cs with
          | nil => simp at hx
          | cons y ys =>
            simp at hx
            subst hx
            simpa using h
        simp [signed_digits, h1, this]
      · by_cases h2 : c = '+'
        · simp only [h2, or_true, if_true] at h
          have : digits cs 0 = 0 := by
            apply digits_of_non_digit
            intro x hx
            cases cs with
            | nil => simp at hx
            | cons y ys =>
              simp at hx
              subst hx
              simpa using h
          simp [signed_digits, h2, this]
        · simp only [h1, h2, or_self, if_false] at h
          have h3 : isdigit c = false := by simpa using h
          simp [signed_digits, h1, h2, digits, h3]
  rw [key]
  decide

theorem strtol_append (d t : String) (hd : is_decimal d = true) (ht : no_digit_first t = true) :
    strtol (d ++ t) = strtol d := by
  unfold strtol
  congr 2
  simp only [is_decimal, Bool.and_eq_true, Bool.not_eq_true', List.all_eq_true] at hd
  obtain ⟨hne, hall⟩ := hd
  have ht' : ∀ c ∈ t.toList.head?, isdigit c = false := by
    unfold no_digit_first at ht
    intro c hc
    cases hl : t.toList with
    | nil => rw [hl] at hc; simp at hc
    | cons y ys =>
      rw [hl] at hc ht
      simp at hc
      subst hc
      simpa using ht
  have happ : (d ++ t).toList = d.toList ++ t.toList := String.data_append d t
  rw [happ]
  cases hl : d.toList with
  | nil => rw [hl] at hne; simp at hne
  | cons c cs =>
    rw [hl] at hall
    have hc : isdigit c = true := hall c (List.mem_cons_self _ _)
    have hsp : isspace c = false := by
      simp only [isdigit, isspace, Bool.and_eq_true, decide_eq_true_eq] at hc ⊢
      simp only [Bool.or_eq_false_iff, Bool.and_eq_false_iff, decide_eq_false_iff_not]
      omega
    have hm : c ≠ '-' := by
      rintro rfl
      revert hc
      decide
    have hp : c ≠ '+' := by
      rintro rfl
      revert hc
      decide
    simp only [List.cons_append, List.dropWhile_cons, hsp, Bool.false_eq_true, if_false,
      signed_digits, hm, hp]
    have := digits_append (c :: cs) t.toList hall ht' 0
    simp only [List.cons_append] at this
    rw [this]

/-! ## Counting the children of a round -/

theorem spawned_bind_le {α β : Type} (x : Proc α) (f : α → Proc β) (n m : Nat)
    (hx : (spawned x.trace).length ≤ n) (hf : ∀ a, (spawned (f a).trace).length ≤ m) :
    (spawned (x >>= f).trace).length ≤ n + m := by
  rcases bind_cases x f with ⟨a, -, h⟩ | ⟨s, -, h⟩
  · rw [h, spawned_append, List.length_append]
    have := hf a
    omega
  · rw [h]
    simp only
    omega

theorem fork_body_spawned_le (os : OS) (r addr ms i : Nat) (pids : Nat → Int) :
    (spawned (fork_body os r addr ms i pids).trace).length ≤ 1 := by
  by_cases h1 : 0 < os.fork r i
  · rw [fork_body_ok _ _ _ _ _ _ h1]
    simp [spawned, h1]
  · have hs : spawned (fork_body os r addr ms i pids).trace =
        spawned (after_fork os r addr ms i pids (os.fork r i)).trace := by
      simp [fork_body, emit, spawned, h1]
    rw [hs]
    by_cases h2 : os.fork r i < 0
    · simp [after_fork, exit_with_error, emit, exit, pure_def, h2, spawned]
    · have h3 : os.fork r i = 0 := by omega
      obtain ⟨s, hs1⟩ := child_work_exits os r i addr ms ((i : Int) + 1)
      have h4 : (after_fork os r addr ms i pids (os.fork r i)).trace =
          (child_work os r i addr ms ((i : Int) + 1)).trace := by
        rcases hc : child_work os r i addr ms ((i : Int) + 1) with ⟨t, o⟩
        rw [hc] at hs1
        simp only at hs1
        subst hs1
        simp [after_fork, hc, h3]
      rw [h4]
      by_cases h5 : os.munmap r i = -1
      · rw [child_work_fail _ _ _ _ _ _ h5]
        simp [spawned]
      · rw [child_work_ok _ _ _ _ _ _ h5]
        simp [spawned]

theorem fork_loop_spawned_le (os : OS) (r addr ms : Nat) (k : Nat) :
    ∀ (lo : Nat) (pids : Nat → Int),
      (spawned (forLoop (fork_body os r addr ms) lo k pids).trace).length ≤ k := by
  induction k with
  | zero => intro lo pids; simp [forLoop_zero, spawned]
  | succ k ih =>
    intro lo pids
    rw [forLoop_succ]
    have := spawned_bind_le (fork_body os r addr ms lo pids)
      (fun s => forLoop (fork_body os r addr ms) (lo + 1) k s) 1 k
      (fork_body_spawned_le os r addr ms lo pids) (fun a => ih (lo + 1) a)
    omega

theorem round_tail_spawned_le (os : OS) (r addr ms : Nat) (nc fs : Int) (pids : Nat → Int) :
    (spawned (round_tail os r addr ms nc fs 0 pids).trace).length ≤ nc.toNat := by
  unfold round_tail
  have := spawned_bind_le (forLoop (fork_body os r addr ms) 0 (nc.toNat - 0) pids)
    (fun pids => do
      forLoop (wait_body pids) 0 nc.toNat ()
      let fork_end ← get_time_us (os.forkEnd r)
      emit (.total (fork_end - fs))) nc.toNat 0
    (by simpa using fork_loop_spawned_le os r addr ms nc.toNat 0 pids)
    (by
      intro p1
      simp only [wait_loop]
      simp [emit, get_time_us, pure_def, spawned_append, spawned_waits]
      simp [spawned])
  simpa using this

theorem round_spawned_le (os : OS) (ms : Nat) (nc : Int) (r : Nat) :
    (spawned (round os ms nc r ()).trace).length ≤ nc.toNat := by
  by_cases h1 : os.mmap r = MAP_FAILED
  · simp [round, exit_with_error, emit, exit, pure_def, h1, spawned]
  · by_cases h2 : os.madvise r = -1
    · simp [round, exit_with_error, emit, exit, pure_def, h1, h2, spawned]
    · have h := round_tail_spawned_le os r (os.mmap r) ms nc (time_us (os.forkStart r))
        (fun _ => 0)
      have e : spawned (round os ms nc r ()).trace =
          spawned (round_tail os r (os.mmap r) ms nc (time_us (os.forkStart r)) 0
            (fun _ => 0)).trace := by
        simp [round, emit, get_time_us, pure_def, h1, h2, spawned]
      rw [e]
      exact h

/-! ## Lines of a run without failure -/

theorem round_events_not_timing (os : OS) (ms n q : Nat) :
    ∀ e ∈ round_events os ms n q, ∀ id d, e ≠ .childLine id d := by
  intro e he id d
  simp only [round_events, round_start_events, List.mem_append, List.mem_cons, List.mem_map,
    List.mem_singleton, List.not_mem_nil, or_false] at he
  rcases he with ((h | ⟨_, _, h⟩) | ⟨_, _, h⟩) | h
  · rcases h with rfl | rfl | rfl | rfl | rfl | rfl <;> simp
  · subst h; simp
  · subst h; simp
  · rcases h with rfl | rfl <;> simp

/-- When no call of the parent fails, no line inherited by a child is a per-child
timing line. -/
theorem timing_lines_inherited (os : OS) (a0 a1 a2 a3 : String) (h1 : 0 < mem_size_of a1)
    (h2 : 0 < atoi a2) (h3 : 0 < atoi a3)
    (hp : ∀ r < (atoi a2).toNat, RoundSucceeds os (atoi a3).toNat r) (r i : Nat) :
    timing_lines (stdout (inherited os [a0, a1, a2, a3] r i)) = [] := by
  unfold timing_lines
  rw [List.filter_eq_nil_iff]
  intro e he
  rcases mem_inherited (mem_stdout he).1 with h | ⟨h, -⟩
  · subst h
    simp
  · rw [main_ok os a0 a1 a2 a3 h1 h2 h3 hp] at h
    simp only [List.mem_append, List.mem_flatMap] at h
    rcases h with h | ⟨q, -, h⟩
    · unfold probe_events at h
      split at h
      · simp only [List.mem_cons, List.mem_singleton, List.not_mem_nil, or_false] at h
        rcases h with rfl | rfl <;> simp
      · simp only [List.mem_singleton] at h
        subst h
        simp
    · have := round_events_not_timing os _ _ q e h
      cases e <;> simp at this ⊢

theorem timing_lines_append (s t : List Event) :
    timing_lines (s ++ t) = timing_lines s ++ timing_lines t := by
  simp [timing_lines]

/-! ## Decimal arguments -/

theorem isDigit_eq (c : Char) : c.isDigit = isdigit c := by
  simp only [Char.isDigit, isdigit, Char.toNat, ge_iff_le, UInt32.le_def, Fin.le_def]
  rfl

theorem digits_eq_foldl (l : List Char) (hall : ∀ c ∈ l, isdigit c = true) :
    ∀ acc, digits l acc = l.foldl (fun n c => n * 10 + (c.toNat - '0'.toNat)) acc := by
  induction l with
  | nil => intro acc; rfl
  | cons c cs ih =>
    intro acc
    have hc : isdigit c = true := hall c (List.mem_cons_self _ _)
    simp only [digits, hc, if_true, List.foldl_cons]
    exact ih (fun x hx => hall x (List.mem_cons_of_mem _ hx)) _

theorem signed_digits_decimal (l : List Char) (hne : l ≠ [])
    (hall : ∀ c ∈ l, isdigit c = true) :
    signed_digits (l.dropWhile isspace) = (digits l 0 : Int) := by
  cases l with
  | nil => exact absurd rfl hne
  | cons c cs =>
    have hc : isdigit c = true := hall c (List.mem_cons_self _ _)
    have hsp : isspace c = false := by
      simp only [isdigit, isspace, Bool.and_eq_true, decide_eq_true_eq] at hc ⊢
      simp only [Bool.or_eq_false_iff, Bool.and_eq_false_iff, decide_eq_false_iff_not]
      omega
    have hm : c ≠ '-' := by
      rintro rfl
      revert hc
      decide
    have hp : c ≠ '+' := by
      rintro rfl
      revert hc
      decide
    simp only [List.dropWhile_cons, hsp, Bool.false_eq_true, if_false, signed_digits, hm, hp]

/-- What `String.toNat?` reads: the value of a non-empty run of decimal digits. -/
theorem string_toNat_eq (s : String) :
    s.toNat? = if is_decimal s = true then some (digits s.toList 0) else none := by
  have he : s.isEmpty = s.toList.isEmpty := by
    rcases s with ⟨l⟩
    cases l with
    | nil => rfl
    | cons c cs =>
      have : (String.mk (c :: cs)).isEmpty = false := by
        rw [Bool.eq_false_iff, ne_eq, String.isEmpty_iff]
        intro h
        have h1 := congrArg String.data h
        exact List.cons_ne_nil _ _ h1
      simpa using this
  have ha : s.all (fun c => c.isDigit) = s.toList.all isdigit := by
    rw [String.all_eq, show (fun c : Char => c.isDigit) = isdigit from funext isDigit_eq]
    rfl
  unfold String.toNat? String.isNat is_decimal
  rw [he, ha]
  by_cases h : (!s.toList.isEmpty && s.toList.all isdigit) = true
  · simp only [h, if_true]
    rw [String.foldl_eq]
    simp only [Bool.and_eq_true, List.all_eq_true] at h
    rw [digits_eq_foldl s.toList h.2 0]
    rfl
  · simp only [h]
    rfl

/-- The value `strtol` gives to the decimal string of `m`: `m`, saturated at `LONG_MAX`. -/
theorem strtol_of_toNat (s : String) (m : Nat) (h : s.toNat? = some m) :
    strtol s = min (m : Int) LONG_MAX := by
  rw [string_toNat_eq] at h
  by_cases hd : is_decimal s = true
  · rw [if_pos hd] at h
    injection h with h
    simp only [is_decimal, Bool.and_eq_true, Bool.not_eq_true', List.all_eq_true,
      List.isEmpty_eq_false] at hd
    unfold strtol
    rw [signed_digits_decimal s.toList hd.1 hd.2, h]
    simp only [LONG_MIN, LONG_MAX]
    omega
  · rw [if_neg hd] at h
    exact absurd h (by simp)

/-! ## Durations -/

theorem stdout_inherited (os : OS) (argv : List String) (r i : Nat) :
    stdout (inherited os argv r i) = inherited os argv r i := by
  unfold stdout
  rw [List.filter_eq_self]
  intro e he
  rcases mem_inherited he with h | ⟨-, h⟩
  · subst h
    rfl
  · cases e <;> simp [IsLine] at h ⊢

theorem mem_stdout_of {t : List Event} {e : Event} (h1 : e ∈ t) (h2 : IsLine e) :
    e ∈ stdout t := by
  unfold stdout
  rw [List.mem_filter]
  refine ⟨h1, ?_⟩
  cases e <;> simp [IsLine] at h2 ⊢

theorem timing_lines_flatMap {α : Type} (f : α → List Event) (l : List α) :
    timing_lines (l.flatMap f) = l.flatMap (fun a => timing_lines (f a)) := by
  induction l with
  | nil => rfl
  | cons a l ih => simp [List.flatMap_cons, timing_lines_append, ih]

theorem flatMap_singleton_eq_map {α β : Type} (f : α → β) (l : List α) :
    l.flatMap (fun a => [f a]) = l.map f := by
  induction l with
  | nil => rfl
  | cons a l ih => simp [List.flatMap_cons, ih]

/-- The lines written by the children of a round in which every `fork` up to `n`
succeeded and no `munmap` failed. -/
theorem stdout_children (os : OS) (argv : List String) (r n : Nat)
    (hc : ∀ i < n, os.munmap r i ≠ -1) :
    ∀ l : List Nat, (∀ i ∈ l, i < n) →
      (l.map (fun i => (r, i))).flatMap (fun p => stdout (child os argv p.1 p.2).trace) =
        l.flatMap (fun (i : Nat) => inherited os argv r i ++
          [Event.childLine ((i : Int) + 1)
            (time_us (os.childEnd r i) - time_us (os.childStart r i))]) := by
  intro l
  induction l with
  | nil => intro _; rfl
  | cons a l ih =>
    intro hl
    have ha : a < n := hl a (List.mem_cons_self _ _)
    rw [List.map_cons, List.flatMap_cons, List.flatMap_cons,
      ih (fun i hi => hl i (List.mem_cons_of_mem _ hi)), child_ok os _ r a (hc a ha)]
    simp only [stdout_append, stdout_inherited]
    simp [stdout]

/-! # The claims -/

/-- C1: for valid arguments, when no operating-system call fails, `main` runs exactly
`repeat` rounds in order (the parent prints the headers 1..repeat, each with one size
line and one total-time line), the per-child timing lines written by the children of
every round are exactly one for each child number 1..children, and the program exits with
status 0.  Besides its timing line a child writes what it inherited from the parent's
output buffer: nothing when standard output is a terminal. -/
theorem C1_rounds_and_lines (os : OS) (a0 a1 a2 a3 : String)
    (h1 : 0 < mem_size_of a1) (h2 : 0 < atoi a2) (h3 : 0 < atoi a3)
    (hp : ∀ r < (atoi a2).toNat, RoundSucceeds os (atoi a3).toNat r)
    (hc : ∀ r < (atoi a2).toNat, ∀ i < (atoi a3).toNat, os.munmap r i ≠ -1) :
    (main os [a0, a1, a2, a3]).outcome = .returned 0 ∧
    exitStatus (main os [a0, a1, a2, a3]) = 0 ∧
    stdout (main os [a0, a1, a2, a3]).trace =
      (List.range (atoi a2).toNat).flatMap (fun r =>
        [.roundHeader ((r : Int) + 1), .writing (mem_size_of a1 / (1024 * 1024)),
          .total (time_us (os.forkEnd r) - time_us (os.forkStart r))]) ∧
    ∀ r < (atoi a2).toNat,
      timing_lines (child_lines os [a0, a1, a2, a3] r) =
        (List.range (atoi a3).toNat).map (fun i =>
          .childLine ((i : Int) + 1)
            (time_us (os.childEnd r i) - time_us (os.childStart r i))) ∧
      child_lines os [a0, a1, a2, a3] r =
        (List.range (atoi a3).toNat).flatMap (fun i =>
          inherited os [a0, a1, a2, a3] r i ++
            [.childLine ((i : Int) + 1)
              (time_us (os.childEnd r i) - time_us (os.childStart r i))]) ∧
      (os.isatty = true →
        child_lines os [a0, a1, a2, a3] r =
          (List.range (atoi a3).toNat).map (fun i =>
            .childLine ((i : Int) + 1)
              (time_us (os.childEnd r i) - time_us (os.childStart r i)))) := by
  have hm := main_ok os a0 a1 a2 a3 h1 h2 h3 hp
  refine ⟨by rw [hm], by rw [hm]; rfl, ?_, ?_⟩
  · rw [hm]
    simp only [stdout_append, stdout_probe, stdout_flatMap, stdout_round_events,
      List.nil_append]
  · intro r hr
    have hs : spawned (main os [a0, a1, a2, a3]).trace =
        (List.range (atoi a2).toNat).flatMap
          (fun q => (List.range (atoi a3).toNat).map (fun i => (q, i))) := by
      rw [hm]
      simp only [spawned_append, spawned_probe, spawned_flatMap, List.nil_append]
      apply List.flatMap_congr
      intro q hq
      exact spawned_round_events os _ _ q (hp q (List.mem_range.mp hq)).2.2
    have hl : child_lines os [a0, a1, a2, a3] r =
        (List.range (atoi a3).toNat).flatMap (fun (i : Nat) =>
          inherited os [a0, a1, a2, a3] r i ++
            [Event.childLine ((i : Int) + 1)
              (time_us (os.childEnd r i) - time_us (os.childStart r i))]) := by
      unfold child_lines
      rw [hs, filter_round, if_pos hr]
      exact stdout_children os _ r _ (hc r hr) _ (fun i hi => List.mem_range.mp hi)
    refine ⟨?_, hl, ?_⟩
    · rw [hl, timing_lines_flatMap, ← flatMap_singleton_eq_map]
      apply List.flatMap_congr
      intro i _
      have h0 := timing_lines_inherited os a0 a1 a2 a3 h1 h2 h3 hp r i
      rw [stdout_inherited] at h0
      rw [timing_lines_append, h0]
      rfl
    · intro htty
      rw [hl, ← flatMap_singleton_eq_map]
      apply List.flatMap_congr
      intro i _
      rw [inherited_isatty os _ r i htty]
      rfl

/-- The scenario of the specification: 64 MB, one round, four children, on a terminal;
and what the children of a round of two write when standard output is a pipe. -/
theorem C1_rounds_and_lines_witness :
    (main os_ok ["bench", "64", "1", "4"]).outcome = .returned 0 ∧
    exitStatus (main os_ok ["bench", "64", "1", "4"]) = 0 ∧
    stdout (main os_ok ["bench", "64", "1", "4"]).trace =
      [.roundHeader 1, .writing 64, .total 900] ∧
    child_lines os_ok ["bench", "64", "1", "4"] 0 =
      [.childLine 1 250, .childLine 2 250, .childLine 3 250, .childLine 4 250] ∧
    timing_lines (child_lines os_pipe ["bench", "64", "1", "2"] 0) =
      [.childLine 1 250, .childLine 2 250] ∧
    child_lines os_pipe ["bench", "64", "1", "2"] 0 =
      [.roundHeader 1, .writing 64, .childLine 1 250,
        .roundHeader 1, .writing 64, .childLine 2 250] := by
  have h := C1_rounds_and_lines os_ok "bench" "64" "1" "4" (by decide) (by decide) (by decide)
    (by
      intro r _
      refine ⟨?_, by simp [os_ok], ?_⟩
      · simp only [os_ok, MAP_FAILED]
        omega
      · intro i _
        simp only [os_ok]
        omega)
    (by intro r _ i _; simp [os_ok])
  exact ⟨h.1, h.2.1, h.2.2.1, (h.2.2.2 0 (by decide)).2.2 rfl, by decide, by decide⟩

/-- C3: when the number of positional arguments is not 3 (`argc != 4`), `main` writes
the usage message on the error stream and exits with failure status, and does nothing
else: no round, no line on standard output, no child. -/
theorem C3_usage (os : OS) (argv : List String) (h : argv.length ≠ 4) :
    main os argv = ⟨[.usage argv.head?], .exited EXIT_FAILURE⟩ ∧
    exitStatus (main os argv) = EXIT_FAILURE ∧
    stdout (main os argv).trace = [] ∧
    spawned (main os argv).trace = [] := by
  have hm : main os argv = ⟨[.usage argv.head?], .exited EXIT_FAILURE⟩ := by
    have h' : ¬ ((argv.length : Int) = 4) := by omega
    simp [main, emit, exit, h']
  rw [hm]
  exact ⟨rfl, rfl, rfl, rfl⟩

/-- Two positional arguments only. -/
theorem C3_usage_witness :
    ["bench", "64", "1"].length ≠ 4 ∧
    main os_ok ["bench", "64", "1"] = ⟨[.usage (some "bench")], .exited EXIT_FAILURE⟩ :=
  ⟨by decide, (C3_usage os_ok ["bench", "64", "1"] (by decide)).1⟩

/-- C4: when the `fork` of round `r`, index `k` is the call that fails, the parent stops
there with failure status: its trace ends with that `fork` and the error message, so
that no `fork` of a larger index, no `waitpid` of that round, no total-time line of that
round and no later round follow; the children of round `r` are those of index below `k`. -/
theorem C4_fork_failure (os : OS) (a0 a1 a2 a3 : String) (h1 : 0 < mem_size_of a1)
    (h2 : 0 < atoi a2) (h3 : 0 < atoi a3) (r k : Nat)
    (hr : r < (atoi a2).toNat) (hk : k < (atoi a3).toNat)
    (hp : ∀ q < r, RoundSucceeds os (atoi a3).toNat q)
    (hm : os.mmap r ≠ MAP_FAILED) (ha : os.madvise r ≠ -1)
    (hf : ∀ i < k, 0 < os.fork r i) (hfail : os.fork r k < 0) :
    main os [a0, a1, a2, a3] =
      ⟨probe_events os ++
        (List.range r).flatMap (round_events os (mem_size_of a1) (atoi a3).toNat) ++
        round_start_events os (mem_size_of a1) r ++
        (List.range k).map (fun i => .fork r i (os.fork r i)) ++
        [.fork r k (os.fork r k), .perror "fork failed"], .exited EXIT_FAILURE⟩ ∧
    exitStatus (main os [a0, a1, a2, a3]) = EXIT_FAILURE ∧
    spawned (main os [a0, a1, a2, a3]).trace =
      (List.range r).flatMap (fun q => (List.range (atoi a3).toNat).map (fun i => (q, i))) ++
        (List.range k).map (fun i => (r, i)) ∧
    stdout (main os [a0, a1, a2, a3]).trace =
      (List.range r).flatMap (fun q =>
        [.roundHeader ((q : Int) + 1), .writing (mem_size_of a1 / (1024 * 1024)),
          .total (time_us (os.forkEnd q) - time_us (os.forkStart q))]) ++
        [.roundHeader ((r : Int) + 1), .writing (mem_size_of a1 / (1024 * 1024))] := by
  have e := main_fork_fail os a0 a1 a2 a3 h1 h2 h3 r k hr hk hp hm ha hf hfail
  refine ⟨e, by rw [e]; rfl, ?_, ?_⟩
  · rw [e]
    have e1 : (List.range r).flatMap
        (fun q => spawned (round_events os (mem_size_of a1) (atoi a3).toNat q)) =
        (List.range r).flatMap
          (fun q => (List.range (atoi a3).toNat).map (fun i => (q, i))) := by
      apply List.flatMap_congr
      intro q hq
      exact spawned_round_events os _ _ q (hp q (List.mem_range.mp hq)).2.2
    have e2 : ¬ 0 < os.fork r k := by omega
    simp only [spawned_append, spawned_probe, spawned_flatMap, List.nil_append, e1,
      spawned_forks os r _ (fun i hi => hf i (List.mem_range.mp hi))]
    simp [spawned, round_start_events, e2]
  · rw [e]
    simp only [stdout_append, stdout_probe, stdout_flatMap, stdout_round_events,
      List.nil_append, stdout_forks]
    simp [stdout, round_start_events]

/-- Three rounds of four children asked for; the third `fork` of the second round fails. -/
theorem C4_fork_failure_witness :
    main os_fork_fails ["bench", "64", "3", "4"] =
      ⟨[.system,
        .roundHeader 1, .mmap 67108864, .madvise 4096 67108864, .writing 64,
        .memset 4096 67108864, .gettimeofday, .fork 0 0 100, .fork 0 1 101, .fork 0 2 102,
        .fork 0 3 103, .waitpid 100, .waitpid 101, .waitpid 102, .waitpid 103,
        .gettimeofday, .total 900,
        .roundHeader 2, .mmap 67108864, .madvise 8192 67108864, .writing 64,
        .memset 8192 67108864, .gettimeofday, .fork 1 0 100, .fork 1 1 101, .fork 1 2 (-1),
        .perror "fork failed"], .exited 1⟩ ∧
    spawned (main os_fork_fails ["bench", "64", "3", "4"]).trace =
      [(0, 0), (0, 1), (0, 2), (0, 3), (1, 0), (1, 1)] := by
  have h := C4_fork_failure os_fork_fails "bench" "64" "3" "4" (by decide) (by decide)
    (by decide) 1 2 (by decide) (by decide)
    (by
      intro q hq
      have hq0 : q = 0 := by omega
      subst hq0
      refine ⟨by decide, by decide, ?_⟩
      intro i _
      simp only [os_fork_fails, os_ok]
      simp
      omega)
    (by decide) (by decide)
    (by
      intro i hi
      have : i ≠ 2 := by omega
      simp only [os_fork_fails, os_ok]
      simp [this]
      omega)
    (by decide)
  exact ⟨h.1, h.2.2.1⟩

/-- C5: failures of `munmap` in the children change nothing in the parent: whatever the
children's `munmap` calls return, the parent (none of whose own calls fails) performs the
same events, waiting for all the children of a round, writing its total-time line and
mapping memory afresh in every round, and exits with status 0; a child whose `munmap`
fails writes the error message and exits with failure status, and no per-child timing
line is among what it writes (the lines inherited from the parent's output buffer,
none of them when standard output is a terminal). -/
theorem C5_unmap_failures (os : OS) (munmap1 : Nat → Nat → Int) (a0 a1 a2 a3 : String)
    (h1 : 0 < mem_size_of a1) (h2 : 0 < atoi a2) (h3 : 0 < atoi a3)
    (hp : ∀ r < (atoi a2).toNat, RoundSucceeds os (atoi a3).toNat r) :
    main { os with munmap := munmap1 } [a0, a1, a2, a3] = main os [a0, a1, a2, a3] ∧
    main { os with munmap := munmap1 } [a0, a1, a2, a3] =
      ⟨probe_events os ++ (List.range (atoi a2).toNat).flatMap
        (round_events os (mem_size_of a1) (atoi a3).toNat), .returned 0⟩ ∧
    exitStatus (main { os with munmap := munmap1 } [a0, a1, a2, a3]) = 0 ∧
    ∀ r i, munmap1 r i = -1 →
      child { os with munmap := munmap1 } [a0, a1, a2, a3] r i =
        ⟨inherited { os with munmap := munmap1 } [a0, a1, a2, a3] r i ++
          [.gettimeofday, .munmap (os.mmap r) (mem_size_of a1), .perror "munmap failed"],
          .exited EXIT_FAILURE⟩ ∧
      stdout (child { os with munmap := munmap1 } [a0, a1, a2, a3] r i).trace =
        inherited { os with munmap := munmap1 } [a0, a1, a2, a3] r i ∧
      timing_lines (stdout (child { os with munmap := munmap1 } [a0, a1, a2, a3] r i).trace) =
        [] ∧
      (os.isatty = true →
        stdout (child { os with munmap := munmap1 } [a0, a1, a2, a3] r i).trace = []) := by
  have e0 := main_ok os a0 a1 a2 a3 h1 h2 h3 hp
  have e1 := main_ok { os with munmap := munmap1 } a0 a1 a2 a3 h1 h2 h3 hp
  refine ⟨by rw [e0, e1]; rfl, by rw [e1]; rfl, by rw [e1]; rfl, ?_⟩
  intro r i hri
  have e2 := child_fail { os with munmap := munmap1 } [a0, a1, a2, a3] r i hri
  have e3 : stdout (child { os with munmap := munmap1 } [a0, a1, a2, a3] r i).trace =
      inherited { os with munmap := munmap1 } [a0, a1, a2, a3] r i := by
    rw [e2]
    simp only [stdout_append, stdout_inherited]
    simp [stdout]
  refine ⟨e2, e3, ?_, ?_⟩
  · have h0 := timing_lines_inherited { os with munmap := munmap1 } a0 a1 a2 a3 h1 h2 h3 hp r i
    rw [stdout_inherited] at h0
    rw [e3, h0]
  · intro htty
    rw [e3]
    exact inherited_isatty _ _ r i htty

/-- Two rounds of two children in which every `munmap` fails, on a terminal and on a
pipe. -/
theorem C5_unmap_failures_witness :
    main os_unmap_fails ["bench", "64", "2", "2"] = main os_ok ["bench", "64", "2", "2"] ∧
    exitStatus (main os_unmap_fails ["bench", "64", "2", "2"]) = 0 ∧
    child os_unmap_fails ["bench", "64", "2", "2"] 0 1 =
      ⟨[.gettimeofday, .munmap 4096 67108864, .perror "munmap failed"], .exited 1⟩ ∧
    child { os_unmap_fails with isatty := false } ["bench", "64", "2", "2"] 1 0 =
      ⟨[.roundHeader 1, .writing 64, .total 900, .roundHeader 2, .writing 64,
        .gettimeofday, .munmap 8192 67108864, .perror "munmap failed"], .exited 1⟩ := by
  have h := C5_unmap_failures os_ok (fun _ _ => -1) "bench" "64" "2" "2" (by decide)
    (by decide) (by decide)
    (by
      intro r _
      refine ⟨?_, by simp [os_ok], ?_⟩
      · simp only [os_ok, MAP_FAILED]
        omega
      · intro i _
        simp only [os_ok]
        omega)
  exact ⟨h.1, h.2.2.1, by decide, by decide⟩

/-- C2 (the code departs from the claim): with the memory size `-5`, a repeat count of 1
and one child, `main` does not write the validation message; it starts round 1 and calls
`mmap` with `2^64 - 5 * 2^20` bytes.  On an operating system that refuses the mapping the
run ends there; on one that grants it the whole round runs and the exit status is 0. -/
theorem C2_negative_size_accepted :
    atol "-5" = -5 ∧
    main os_enomem ["bench", "-5", "1", "1"] =
      ⟨[.system, .roundHeader 1, .mmap 18446744073704308736, .perror "mmap failed"],
        .exited 1⟩ ∧
    main os_ok ["bench", "-5", "1", "1"] =
      ⟨[.system, .roundHeader 1, .mmap 18446744073704308736,
        .madvise 4096 18446744073704308736, .writing 17592186044411,
        .memset 4096 18446744073704308736, .gettimeofday, .fork 0 0 100, .waitpid 100,
        .gettimeofday, .total 900], .returned 0⟩ := by
  refine ⟨by decide, by decide, by decide⟩

/-- C6 as stated fails: the positive memory size `2^44` MB wraps to a region of 0 bytes
and is rejected by the validation, before any call to `mmap`. -/
theorem C6_wrapped_size_rejected :
    0 < atol "17592186044416" ∧ 0 < atoi "1" ∧
    main os_ok ["bench", "17592186044416", "1", "1"] = ⟨[.invalid], .exited 1⟩ := by
  refine ⟨by decide, by decide, by decide⟩

/-- C6 (amended): there is no upper bound on the memory size.  Let the first argument be
the decimal digits of a positive megabyte count `m`, and `m1 = min m LONG_MAX` the value
that `atol` reads.  If `m1 * 1024 * 1024` is not a multiple of `2^64`, the validation
passes (with positive repeat and child counts) and round 1 calls `mmap` with
`(m1 * 1024 * 1024) mod 2^64` bytes. -/
theorem C6_no_upper_bound (os : OS) (a0 a1 a2 a3 : String) (m : Nat)
    (hm : a1.toNat? = some m) (hpos : 0 < m)
    (hnz : (min (m : Int) LONG_MAX * 1024 * 1024) % 2 ^ 64 ≠ 0)
    (h2 : 0 < atoi a2) (h3 : 0 < atoi a3) :
    atol a1 = min (m : Int) LONG_MAX ∧ 0 < atol a1 ∧
    mem_size_of a1 = ((min (m : Int) LONG_MAX * 1024 * 1024) % 2 ^ 64).toNat ∧
    Event.invalid ∉ (main os [a0, a1, a2, a3]).trace ∧
    ∃ rest, (main os [a0, a1, a2, a3]).trace =
      probe_events os ++ .roundHeader 1 :: .mmap (mem_size_of a1) :: rest := by
  have ha : atol a1 = min (m : Int) LONG_MAX := strtol_of_toNat a1 m hm
  have hs : mem_size_of a1 = ((min (m : Int) LONG_MAX * 1024 * 1024) % 2 ^ 64).toNat := by
    rw [mem_size_of_eq, ha]
  have h1 : 0 < mem_size_of a1 := by
    rw [hs]
    omega
  have hp : 0 < atol a1 := by
    rw [ha]
    simp only [LONG_MAX]
    omega
  refine ⟨ha, hp, hs, ?_, main_begins os a0 a1 a2 a3 h1 h2 h3⟩
  intro hin
  rcases main_events os a0 a1 a2 a3 h1 h2 h3 _ hin with h | h
  · unfold probe_events at h
    split at h <;> simp at h
  · exact h.2.1 rfl

/-- The sizes `2^44 + 1` MB, which wraps to a mapping of 1 MB, and `2^63 + 1` MB, which
`atol` reads as `LONG_MAX`. -/
theorem C6_no_upper_bound_witness :
    (mem_size_of "17592186044417" = 1048576 ∧
      Event.invalid ∉ (main os_ok ["bench", "17592186044417", "1", "1"]).trace ∧
      ∃ rest, (main os_ok ["bench", "17592186044417", "1", "1"]).trace =
        probe_events os_ok ++ .roundHeader 1 :: .mmap 1048576 :: rest) ∧
    (atol "9223372036854775809" = LONG_MAX ∧
      mem_size_of "9223372036854775809" = 18446744073708503040 ∧
      Event.invalid ∉ (main os_ok ["bench", "9223372036854775809", "1", "1"]).trace) := by
  have h := C6_no_upper_bound os_ok "bench" "17592186044417" "1" "1" 17592186044417
    (by rw [string_toNat_eq]; decide) (by decide) (by decide) (by decide) (by decide)
  have k := C6_no_upper_bound os_ok "bench" "9223372036854775809" "1" "1"
    9223372036854775809 (by rw [string_toNat_eq]; decide) (by decide) (by decide) (by decide)
    (by decide)
  exact ⟨⟨by decide, h.2.2.2.1, h.2.2.2.2⟩, ⟨by decide, by decide, k.2.2.2.1⟩⟩

/-- C7: when the megabyte count `m` of the first argument is positive and
`m * 1024 * 1024` does not overflow a `long`, the region has `m * 1024 * 1024` bytes, the
size written in the "Writing to memory" line of every round is `m`, and that byte length
is the one of every `mmap`, `madvise`, `memset` of the parent and of every `munmap` of a
child. -/
theorem C7_size_consistent (os : OS) (a0 a1 a2 a3 : String) (hm : 0 < atol a1)
    (hno : atol a1 * 1024 * 1024 ≤ LONG_MAX) :
    mem_size_of a1 = (atol a1).toNat * 1024 * 1024 ∧
    mem_size_of a1 / (1024 * 1024) = (atol a1).toNat ∧
    (∀ e ∈ (main os [a0, a1, a2, a3]).trace,
      SizesAre ((atol a1).toNat * 1024 * 1024) (atol a1).toNat e) ∧
    ∀ r i, ∀ e ∈ (child os [a0, a1, a2, a3] r i).trace,
      SizesAre ((atol a1).toNat * 1024 * 1024) (atol a1).toNat e := by
  have e1 : mem_size_of a1 = (atol a1).toNat * 1024 * 1024 := by
    rw [mem_size_of_eq]
    simp only [LONG_MAX] at hno
    omega
  have e2 : mem_size_of a1 / (1024 * 1024) = (atol a1).toNat := by
    rw [e1]
    omega
  refine ⟨e1, e2, ?_, ?_⟩
  · intro e he
    have := (main_sizes_durations os a0 a1 a2 a3 e he).1
    rwa [e2, e1] at this
  · intro r i e he
    have := (child_sizes_durations os a0 a1 a2 a3 r i e he).1
    rwa [e2, e1] at this

/-- With 64 MB the size line reads 64 and every length is 67108864. -/
theorem C7_size_consistent_witness :
    Event.writing 64 ∈ (main os_ok ["bench", "64", "1", "4"]).trace ∧
    Event.mmap 67108864 ∈ (main os_ok ["bench", "64", "1", "4"]).trace ∧
    Event.munmap 4096 67108864 ∈ (child os_ok ["bench", "64", "1", "4"] 0 3).trace ∧
    mem_size_of "64" / (1024 * 1024) = 64 ∧
    (∀ e ∈ (main os_ok ["bench", "64", "1", "4"]).trace, SizesAre 67108864 64 e) ∧
    ∀ r i, ∀ e ∈ (child os_ok ["bench", "64", "1", "4"] r i).trace,
      SizesAre 67108864 64 e := by
  have h := C7_size_consistent os_ok "bench" "64" "1" "4" (by decide) (by decide)
  exact ⟨by decide, by decide, by decide, h.2.1, h.2.2.1, h.2.2.2⟩

/-- C9 as stated fails: when standard output is a pipe or a file, a child writes the
round header it inherited from the parent's output buffer, and a child of a later round
also writes the total-time line of an earlier round. -/
theorem C9_child_writes_header :
    (child os_pipe ["bench", "64", "1", "4"] 0 0).trace =
      [.roundHeader 1, .writing 64, .gettimeofday, .munmap 4096 67108864, .gettimeofday,
        .childLine 1 250] ∧
    Event.roundHeader 1 ∈ stdout (child os_pipe ["bench", "64", "1", "4"] 0 0).trace ∧
    Event.total 900 ∈ stdout (child os_pipe ["bench", "64", "2", "1"] 1 0).trace ∧
    ParentOnly (Event.roundHeader 1) ∧ ParentOnly (Event.total 900) := by
  refine ⟨by decide, by decide, by decide, ?_, ?_⟩ <;> simp [ParentOnly]

/-- C9 (amended): `child_work` never returns: on both paths it ends the process (status 0
when `munmap` succeeds, failure status otherwise).  Hence the process created by a `fork`
does not resume the loops of `main`: it calls neither `fork` nor `waitpid` and creates no
process, and all it performs is the events of `child_work`, none of which is a round
header or a total-time line, after the lines it inherited from the parent's output
buffer (lines printed by the parent, the first one possibly cut; none when standard
output is a terminal).  The children created in one round by the parent are at most
`num_children`. -/
theorem C9_child_never_returns :
    (∀ (os : OS) (r i addr len : Nat) (id : Int),
      (child_work os r i addr len id).outcome = .exited 0 ∨
      (child_work os r i addr len id).outcome = .exited EXIT_FAILURE) ∧
    (∀ (os : OS) (argv : List String) (r i : Nat),
      (child os argv r i).trace =
        inherited os argv r i ++
          (child_work os r i (os.mmap r) (mem_size_of (argv.getD 1 "")) ((i : Int) + 1)).trace ∧
      ((child os argv r i).outcome = .exited 0 ∨
        (child os argv r i).outcome = .exited EXIT_FAILURE) ∧
      (∀ e ∈ (child os argv r i).trace, ¬ ForkOrWait e) ∧
      spawned (child os argv r i).trace = [] ∧
      (∀ e ∈ (child_work os r i (os.mmap r) (mem_size_of (argv.getD 1 ""))
        ((i : Int) + 1)).trace, ¬ ParentOnly e) ∧
      (∀ e ∈ inherited os argv r i, e = .fragment ∨ e ∈ stdout (main os argv).trace) ∧
      (os.isatty = true →
        (child os argv r i).trace =
          (child_work os r i (os.mmap r) (mem_size_of (argv.getD 1 "")) ((i : Int) + 1)).trace)) ∧
    (∀ (os : OS) (mem_size : Nat) (num_children : Int) (r : Nat),
      (spawned (round os mem_size num_children r ()).trace).length ≤ num_children.toNat) := by
  refine ⟨?_, ?_, round_spawned_le⟩
  · intro os r i addr len id
    by_cases h : os.munmap r i = -1
    · right
      rw [child_work_fail _ _ _ _ _ _ h]
      rfl
    · left
      rw [child_work_ok _ _ _ _ _ _ h]
  · intro os argv r i
    have ht := child_trace os argv r i
    have hnf : ∀ e ∈ (child os argv r i).trace, ¬ ForkOrWait e := by
      intro e he
      rw [ht] at he
      rcases List.mem_append.mp he with h1 | h1
      · rcases mem_inherited h1 with h | ⟨-, h⟩
        · subst h
          simp [ForkOrWait]
        · cases e <;> simp [IsLine] at h <;> simp [ForkOrWait]
      · have := (child_work_events os r i _ _ _ e h1).2
        cases e <;> simp [ParentOnly] at this <;> simp [ForkOrWait]
    refine ⟨ht, ?_, hnf, ?_, ?_, ?_, ?_⟩
    · by_cases h : os.munmap r i = -1
      · right
        rw [child_fail os argv r i h]
        rfl
      · left
        rw [child_ok os argv r i h]
    · unfold spawned
      rw [List.filterMap_eq_nil_iff]
      intro e he
      have := hnf e he
      cases e <;> simp [ForkOrWait] at this <;> rfl
    · intro e he
      exact (child_work_events os r i _ _ _ e he).2
    · intro e he
      rcases mem_inherited he with h | ⟨h1, h2⟩
      · exact Or.inl h
      · exact Or.inr (mem_stdout_of h1 h2)
    · intro htty
      rw [ht, inherited_isatty os argv r i htty, List.nil_append]

/-- The second child of the first round on a terminal and on a pipe, and the children of
a round of four. -/
theorem C9_child_never_returns_witness :
    (child os_ok ["bench", "64", "1", "4"] 0 1).trace =
      (child_work os_ok 0 1 4096 67108864 2).trace ∧
    (child_work os_ok 0 1 4096 67108864 2).trace =
      [.gettimeofday, .munmap 4096 67108864, .gettimeofday, .childLine 2 250] ∧
    (child os_pipe ["bench", "64", "1", "4"] 0 1).trace =
      inherited os_pipe ["bench", "64", "1", "4"] 0 1 ++
        (child_work os_pipe 0 1 4096 67108864 2).trace ∧
    inherited os_pipe ["bench", "64", "1", "4"] 0 1 = [.roundHeader 1, .writing 64] ∧
    (spawned (round os_ok 67108864 4 0 ()).trace).length ≤ 4 :=
  ⟨(C9_child_never_returns.2.1 os_ok ["bench", "64", "1", "4"] 0 1).2.2.2.2.2.2 rfl,
    by decide,
    (C9_child_never_returns.2.1 os_pipe ["bench", "64", "1", "4"] 0 1).1,
    by decide,
    C9_child_never_returns.2.2 os_ok 67108864 4 0⟩

/-- C10: arguments are read by their numeric beginning.  An argument with no decimal digit
after optional white space and sign is read as 0, and with such an argument in any of the
three positions `main` stops at the validation error, before any round.  An argument made
of decimal digits followed by text that does not start with a digit is read as the digits
alone: in each of the three positions, whatever the other arguments, the parent and every
child run exactly as with the digits alone. -/
theorem C10_numeric_beginning :
    (∀ s : String, no_leading_digits s = true → atol s = 0 ∧ atoi s = 0) ∧
    (∀ (os : OS) (a0 a1 a2 a3 : String),
      no_leading_digits a1 = true ∨ no_leading_digits a2 = true ∨
        no_leading_digits a3 = true →
      main os [a0, a1, a2, a3] = ⟨[.invalid], .exited EXIT_FAILURE⟩) ∧
    (∀ d t : String, is_decimal d = true → no_digit_first t = true →
      atol (d ++ t) = atol d ∧ atoi (d ++ t) = atoi d) ∧
    (∀ (os : OS) (a0 a1 a2 a3 d t : String),
      is_decimal d = true → no_digit_first t = true →
      (main os [a0, d ++ t, a2, a3] = main os [a0, d, a2, a3] ∧
        ∀ r i, child os [a0, d ++ t, a2, a3] r i = child os [a0, d, a2, a3] r i) ∧
      (main os [a0, a1, d ++ t, a3] = main os [a0, a1, d, a3] ∧
        ∀ r i, child os [a0, a1, d ++ t, a3] r i = child os [a0, a1, d, a3] r i) ∧
      (main os [a0, a1, a2, d ++ t] = main os [a0, a1, a2, d] ∧
        ∀ r i, child os [a0, a1, a2, d ++ t] r i = child os [a0, a1, a2, d] r i)) := by
  have hz : ∀ s : String, no_leading_digits s = true → atol s = 0 ∧ atoi s = 0 := by
    intro s hs
    have h := strtol_no_digits s hs
    refine ⟨h, ?_⟩
    simp only [atoi, h]
    decide
  have hchild : ∀ (os : OS) (x y : List String),
      mem_size_of (x.getD 1 "") = mem_size_of (y.getD 1 "") →
      atoi (x.getD 2 "") = atoi (y.getD 2 "") → atoi (x.getD 3 "") = atoi (y.getD 3 "") →
      main os x = main os y → ∀ r i, child os x r i = child os y r i := by
    intro os x y e1 e2 e3 em r i
    simp only [child, inherited, printed_before_fork, e1, e2, e3, em]
  refine ⟨hz, ?_, ?_, ?_⟩
  · intro os a0 a1 a2 a3 h
    apply main_invalid
    rcases h with h | h | h
    · left
      rw [mem_size_of_eq, (hz a1 h).1]
      decide
    · right; left
      rw [(hz a2 h).2]
    · right; right
      rw [(hz a3 h).2]
  · intro d t hd ht
    simp only [atol, atoi, strtol_append d t hd ht, and_self]
  · intro os a0 a1 a2 a3 d t hd ht
    have e1 : mem_size_of (d ++ t) = mem_size_of d := by
      simp only [mem_size_of, atol, strtol_append d t hd ht]
    have e2 : atoi (d ++ t) = atoi d := by
      simp only [atoi, strtol_append d t hd ht]
    have m1 : main os [a0, d ++ t, a2, a3] = main os [a0, d, a2, a3] := by
      simp only [main, List.length_cons, List.length_nil, List.getD_cons_succ,
        List.getD_cons_zero, List.head?_cons, e1]
    have m2 : main os [a0, a1, d ++ t, a3] = main os [a0, a1, d, a3] := by
      simp only [main, List.length_cons, List.length_nil, List.getD_cons_succ,
        List.getD_cons_zero, List.head?_cons, e2]
    have m3 : main os [a0, a1, a2, d ++ t] = main os [a0, a1, a2, d] := by
      simp only [main, List.length_cons, List.length_nil, List.getD_cons_succ,
        List.getD_cons_zero, List.head?_cons, e2]
    refine ⟨⟨m1, ?_⟩, ⟨m2, ?_⟩, ⟨m3, ?_⟩⟩
    · exact hchild os _ _ e1 rfl rfl m1
    · exact hchild os _ _ rfl e2 rfl m2
    · exact hchild os _ _ rfl rfl e2 m3

/-- The arguments `abc`, the empty string and `64MB`, the latter next to arguments with
white space and a sign. -/
theorem C10_numeric_beginning_witness :
    (atol "abc" = 0 ∧ atoi "" = 0) ∧
    main os_ok ["bench", "64", "abc", "4"] = ⟨[.invalid], .exited EXIT_FAILURE⟩ ∧
    main os_ok ["bench", "64MB", " 1", "+4"] = main os_ok ["bench", "64", " 1", "+4"] ∧
    child os_pipe ["bench", "64", "2x", "+4"] 1 3 = child os_pipe ["bench", "64", "2", "+4"] 1 3 := by
  have h := C10_numeric_beginning
  refine ⟨⟨(h.1 "abc" (by decide)).1, (h.1 "" (by decide)).2⟩,
    h.2.1 os_ok "bench" "64" "abc" "4" (Or.inr (Or.inl (by decide))), ?_, ?_⟩
  · exact (h.2.2.2 os_ok "bench" "" " 1" "+4" "64" "MB" (by decide) (by decide)).1.1
  · exact (h.2.2.2 os_pipe "bench" "64" "" "+4" "2" "x" (by decide) (by decide)).2.1.2 1 3

end MicroBenchmark
